import Mathlib

/-
Verification of the OpenAPI 3.0 document builder (Go package openapi,
builder source file: Build, registerStandardSchemas, schemaRef,
buildPathParameters, buildQueryParameters, buildRequestBody,
buildAutoErrorResponses, buildResponses, generateOperationID, fieldSchema,
reflectSchema, goTypeToOA, extractParam, toInt, inferSecurityScheme,
fiberPathToOA).

Go maps of type map[string]any are modelled as association lists
(List (String × JVal)) with Go assignment semantics (replace if the key is
present, append otherwise); JSON-able values (the any payloads) are
modelled by the inductive JVal.  Go reflect types are modelled by the
inductive GoType; the ambient set of named struct declarations (which in
Go lives in the runtime type graph, where a named struct may refer to
itself) is modelled as an environment Env mapping a type name to its
field list.  The recursive schema introspector (schemaRef, reflectSchema,
fieldSchema and the field loop of reflectSchema) is modelled as a single
fuel-indexed interpreter over a task type; a result of none for every
fuel models nontermination (or a Go panic, for generateOperationID).
-/

namespace Keel

/-! ## Association lists with Go map assignment semantics -/

/-- Lookup in an association list (models reading a Go map). -/
def glookup {α : Type} : List (String × α) → String → Option α
  | [], _ => none
  | (k, v) :: rest, key => if key = k then some v else glookup rest key

/-- Go map assignment: replace the first binding of the key, or append. -/
def gset {α : Type} : List (String × α) → String → α → List (String × α)
  | [], key, val => [(key, val)]
  | (k, v) :: rest, key, val =>
    if k = key then (key, val) :: rest else (k, v) :: gset rest key val

/-- Merging one map into another, key by key (models a Go range-and-assign
loop such as the auto-error merge in buildResponses). -/
def gmerge {α : Type} (base : List (String × α)) (l : List (String × α)) :
    List (String × α) :=
  l.foldl (fun acc kv => gset acc kv.1 kv.2) base

/-! ## JSON-able values (the payloads of Go map[string]any) -/

/-- A JSON-able Go value as produced by the builder. -/
inductive JVal where
  | str (s : String)
  | num (n : Int)
  | bool (b : Bool)
  | arr (elems : List JVal)
  | obj (entries : List (String × JVal))

/-- Set a key on a JVal known to be an object (other shapes untouched). -/
def jset (j : JVal) (k : String) (v : JVal) : JVal :=
  match j with
  | .obj l => .obj (gset l k v)
  | _ => j

/-- Read a key from a JVal object. -/
def jget (j : JVal) (k : String) : Option JVal :=
  match j with
  | .obj l => glookup l k
  | _ => none

/-! ## Go string helpers used by the builder -/

/-- Character-list prefix test. -/
def charsPrefixOf : List Char → List Char → Bool
  | [], _ => true
  | _ :: _, [] => false
  | a :: xs, b :: ys => a = b && charsPrefixOf xs ys

/-- Character-list contiguous-substring test. -/
def charsInfixOf (needle : List Char) (hay : List Char) : Bool :=
  if charsPrefixOf needle hay then true
  else
    match hay with
    | [] => false
    | _ :: rest => charsInfixOf needle rest

/-- Go strings.Contains (substring test). -/
def goContains (s sub : String) : Bool :=
  charsInfixOf sub.toList s.toList

/-- Go strings.HasPrefix. -/
def goHasPrefix (s pre : String) : Bool :=
  charsPrefixOf pre.toList s.toList

/-- Go string slicing from an index, s[n:] (ASCII byte positions modelled
as character positions). -/
def goDrop (s : String) (n : Nat) : String :=
  ⟨s.toList.drop n⟩

/-- Go string slicing up to an index, s[:n]. -/
def goTake (s : String) (n : Nat) : String :=
  ⟨s.toList.take n⟩

/-- Go strings.ToLower (ASCII). -/
def goLower (s : String) : String :=
  ⟨s.toList.map Char.toLower⟩

/-- Go strings.ToUpper (ASCII). -/
def goUpper (s : String) : String :=
  ⟨s.toList.map Char.toUpper⟩

/-- The character-list splitter behind Go strings.Split with a
one-character separator. -/
def splitChar (sep : Char) : List Char → List (List Char)
  | [] => [[]]
  | c :: rest =>
    if c = sep then [] :: splitChar sep rest
    else
      match splitChar sep rest with
      | [] => [[c]]
      | g :: gs => (c :: g) :: gs

/-- Go strings.Split with a one-character separator (the only form the
builder uses: slash, comma and space). -/
def goSplit (s : String) (sep : Char) : List String :=
  (splitChar sep s.toList).map (fun cs => ⟨cs⟩)

/-- Go strings.Join. -/
def goJoin (sep : String) : List String → String
  | [] => ""
  | [x] => x
  | x :: rest => x ++ sep ++ goJoin sep rest

/-- Go fmt.Sprintf with a percent-d verb on an int. -/
def goItoa (n : Int) : String := toString n

/-- Go toInt helper: fmt.Sscanf with a percent-d verb, 0 on failure.
Skips leading spaces, reads an optional sign and a digit prefix. -/
def toInt (s : String) : Int :=
  let cs := s.toList.dropWhile (fun c => c = ' ')
  let signed : Bool × List Char :=
    match cs with
    | '-' :: rest => (true, rest)
    | '+' :: rest => (false, rest)
    | _ => (false, cs)
  let digits := signed.2.takeWhile Char.isDigit
  if digits.isEmpty then 0
  else
    let mag : Nat := digits.foldl (fun acc c => acc * 10 + (c.toNat - '0'.toNat)) 0
    if signed.1 then -(mag : Int) else (mag : Int)

/-- Go extractParam: the value of a validate param, e.g. min=8 gives 8,
or the empty string when the key is absent. -/
def extractParamParts (key : String) : List String → String
  | [] => ""
  | part :: rest =>
    if goHasPrefix part (key ++ "=") then goDrop part (key ++ "=").length
    else extractParamParts key rest

/-- Go extractParam over the comma-separated validate tag. -/
def extractParam (tag key : String) : String :=
  extractParamParts key (goSplit tag ',')

/-! ## Go reflect kinds and types -/

/-- The reflect kinds the builder distinguishes; other covers every kind
the Go switch in goTypeToOA defaults on. -/
inductive GoKind where
  | str | int | int8 | int16 | int32 | int64
  | float32 | float64 | bool | other
deriving DecidableEq

/-- The struct tags read by the builder (absent tags are empty strings,
as returned by Go StructTag.Get). -/
structure GoTags where
  jsonTag : String
  validateTag : String
  docTag : String
  exampleTag : String
  formatTag : String
  defaultTag : String

/-- A Go reflect type as seen by the builder.  A named struct type refers
to its field list through the environment Env, which allows the
self-referential type graphs Go reflection can produce.  timeT is the
well-known date/time struct (package time, name Time). -/
inductive GoType where
  | prim (k : GoKind)
  | timeT
  | named (n : String)
  | anon (fields : List (GoTags × GoType))
  | slice (elem : GoType)
  | ptr (elem : GoType)
  | dict

/-- The ambient named-struct declarations of the Go program. -/
def Env : Type := String → Option (List (GoTags × GoType))

/-- One pointer dereference, as done at the head of schemaRef and
reflectSchema and on slice elements in fieldSchema. -/
def derefOnce : GoType → GoType
  | .ptr e => e
  | t => t

/-- The declared name of a struct type (empty for anonymous structs),
none for non-struct kinds; mirrors the Kind-is-Struct test plus Name. -/
def structNameOf : GoType → Option String
  | .named n => some n
  | .anon _ => some ""
  | .timeT => some "Time"
  | _ => none

/-- The field list of a struct type, read from the environment for named
structs.  The time.Time struct has no json-tagged fields. -/
def fieldsOf (env : Env) : GoType → List (GoTags × GoType)
  | .named n => (env n).getD []
  | .anon fs => fs
  | _ => []

/-- Kind-is-Struct, as tested on slice elements and pointer elements in
fieldSchema. -/
def isStructKind : GoType → Bool
  | .named _ => true
  | .anon _ => true
  | .timeT => true
  | _ => false

/-- The primitive test of the reflectSchema loop: the field kind is none
of Struct, Slice, Ptr, Map. -/
def isPrimitiveKind : GoType → Bool
  | .prim _ => true
  | _ => false

/-- Go goTypeToOA: OpenAPI type and optional format for a reflect kind
(here read off the type, matching how the source applies it to kinds). -/
def goTypeToOA : GoType → String × String
  | .prim .str => ("string", "")
  | .prim .int => ("integer", "")
  | .prim .int8 => ("integer", "")
  | .prim .int16 => ("integer", "")
  | .prim .int32 => ("integer", "int32")
  | .prim .int64 => ("integer", "int64")
  | .prim .float32 => ("number", "float")
  | .prim .float64 => ("number", "double")
  | .prim .bool => ("boolean", "")
  | _ => ("string", "")

/-! ## Route and build inputs -/

/-- Go QueryParamInput. -/
structure QueryParamInput where
  Name : String
  Typ : String
  Description : String
  Required : Bool

/-- Go RouteInput.  Body and Response carry the reflect type of the Go
any payload; none models a nil interface. -/
structure RouteInput where
  Method : String
  Path : String
  Summary : String
  Description : String
  Tags : List String
  Secured : List String
  Body : Option GoType
  Response : Option GoType
  StatusCode : Int
  QueryParams : List QueryParamInput
  Deprecated : Bool

/-- Go Contact. -/
structure Contact where
  Name : String
  URL : String
  Email : String

/-- Go License. -/
structure License where
  Name : String
  URL : String

/-- Go ServerInfo. -/
structure ServerInfo where
  URL : String
  Description : String

/-- Go TagInfo. -/
structure TagInfo where
  Name : String
  Description : String

/-- Go Info. -/
structure Info where
  Title : String
  Version : String
  Description : String
  Contact : Option Contact
  License : Option License

/-- Go SecurityScheme. -/
structure SecurityScheme where
  typ : String
  scheme : String
  in_ : String
  name : String
  bearerFormat : String
deriving DecidableEq

/-- Go Components. -/
structure Components where
  Schemas : List (String × JVal)
  SecuritySchemes : List (String × SecurityScheme)

/-- Go Spec. -/
structure Spec where
  OpenAPI : String
  Info : Info
  Servers : List ServerInfo
  Tags : List TagInfo
  Paths : List (String × JVal)
  Components : Components
  Security : List (List (String × List String))

/-- Go BuildInput. -/
structure BuildInput where
  Title : String
  Version : String
  Description : String
  Contact : Option Contact
  License : Option License
  Servers : List ServerInfo
  Tags : List TagInfo
  Routes : List RouteInput

/-! ## Pure builders -/

/-- Go inferSecurityScheme: scheme descriptor from the name convention. -/
def inferSecurityScheme (name : String) : SecurityScheme :=
  let lower := goLower name
  if goContains lower "bearer" then ⟨"http", "bearer", "", "", "JWT"⟩
  else if goContains lower "basic" then ⟨"http", "basic", "", "", ""⟩
  else ⟨"apiKey", "", "header", "X-API-Key", ""⟩

/-- Go fiberPathToOA: a colon segment becomes a brace-wrapped segment. -/
def fiberPathToOA (p : String) : String :=
  goJoin "/" ((goSplit p '/').map (fun part =>
    if goHasPrefix part ":" then "\x7b" ++ goDrop part 1 ++ "\x7d" else part))

/-- The OpenAPI path-parameter object emitted by buildPathParameters. -/
def pathParamObj (name : String) : JVal :=
  .obj [("name", .str name), ("in", .str "path"), ("required", .bool true),
        ("schema", .obj [("type", .str "string")])]

/-- The segment loop of Go buildPathParameters. -/
def pathParamsLoop : List String → List JVal
  | [] => []
  | part :: rest =>
    if goHasPrefix part ":" then pathParamObj (goDrop part 1) :: pathParamsLoop rest
    else pathParamsLoop rest

/-- Go buildPathParameters: colon segments of a Fiber path become
required string path parameters. -/
def buildPathParameters (fiberPath : String) : List JVal :=
  pathParamsLoop (goSplit fiberPath '/')

/-- The query-parameter object emitted by buildQueryParameters. -/
def queryParamObj (p : QueryParamInput) : JVal :=
  let typ := if p.Typ = "" then "string" else p.Typ
  let base : List (String × JVal) :=
    [("name", .str p.Name), ("in", .str "query"),
     ("required", .bool p.Required), ("schema", .obj [("type", .str typ)])]
  .obj (if p.Description ≠ "" then base ++ [("description", .str p.Description)] else base)

/-- The loop of Go buildQueryParameters. -/
def queryParamsLoop : List QueryParamInput → List JVal
  | [] => []
  | p :: rest => queryParamObj p :: queryParamsLoop rest

/-- Go buildQueryParameters. -/
def buildQueryParameters (params : List QueryParamInput) : List JVal :=
  queryParamsLoop params

/-- The shared KErrorResponse content object of buildAutoErrorResponses. -/
def kerrorContent : JVal :=
  .obj [("application/json", .obj [("schema",
    .obj [("$ref", .str "#/components/schemas/KErrorResponse")])])]

/-- Go buildAutoErrorResponses: automatic error responses derived from
the route's body, security and path properties. -/
def buildAutoErrorResponses (route : RouteInput) : List (String × JVal) :=
  (if route.Body.isSome then
    [("400", .obj [("description", .str "Bad Request"), ("content", kerrorContent)]),
     ("422", .obj [("description", .str "Validation Error"),
       ("content", .obj [("application/json", .obj [("schema",
         .obj [("$ref", .str "#/components/schemas/ValidationErrorResponse")])])])])]
   else [])
  ++ (if route.Secured.isEmpty then []
      else
        [("401", .obj [("description", .str "Unauthorized"), ("content", kerrorContent)]),
         ("403", .obj [("description", .str "Forbidden"), ("content", kerrorContent)])])
  ++ (if (goSplit route.Path '/').any (fun part => goHasPrefix part ":") then
        [("404", .obj [("description", .str "Not Found"), ("content", kerrorContent)])]
      else [])
  ++ [("500", .obj [("description", .str "Internal Server Error"), ("content", kerrorContent)])]

/-- The segment loop of Go generateOperationID; none models the Go panic
on a bare colon segment (slicing an empty parameter name). -/
def opIdParts : List String → String → Option String
  | [], acc => some acc
  | part :: rest, acc =>
    if part = "" then opIdParts rest acc
    else if goHasPrefix part ":" then
      if goDrop part 1 = "" then none
      else opIdParts rest
        (acc ++ "By" ++ goUpper (goTake (goDrop part 1) 1) ++ goDrop (goDrop part 1) 1)
    else opIdParts rest (acc ++ goUpper (goTake part 1) ++ goDrop part 1)

/-- Go generateOperationID: operationId from the method and path. -/
def generateOperationID (method path : String) : Option String :=
  opIdParts (goSplit path '/') (goLower method)

/-! ## Standard schemas -/

/-- The KErrorResponse schema registered by registerStandardSchemas. -/
def kerrSchema : JVal :=
  .obj [("type", .str "object"),
        ("properties", .obj
          [("status_code", .obj [("type", .str "integer")]),
           ("code", .obj [("type", .str "string")]),
           ("message", .obj [("type", .str "string")])]),
        ("required", .arr [.str "status_code", .str "code", .str "message"])]

/-- The ValidationErrorItem schema registered by registerStandardSchemas. -/
def validationErrorItemSchema : JVal :=
  .obj [("type", .str "object"),
        ("properties", .obj
          [("field", .obj [("type", .str "string")]),
           ("message", .obj [("type", .str "string")])]),
        ("required", .arr [.str "field", .str "message"])]

/-- The ValidationErrorResponse schema registered by
registerStandardSchemas. -/
def validationErrorResponseSchema : JVal :=
  .obj [("type", .str "object"),
        ("properties", .obj
          [("status_code", .obj [("type", .str "integer")]),
           ("message", .obj [("type", .str "string")]),
           ("errors", .obj
             [("type", .str "array"),
              ("items", .obj [("$ref", .str "#/components/schemas/ValidationErrorItem")])])]),
        ("required", .arr [.str "status_code", .str "message", .str "errors"])]

/-- Go registerStandardSchemas: pre-registers the standard error schemas
used by the auto error responses. -/
def registerStandardSchemas (schemas : List (String × JVal)) : List (String × JVal) :=
  gset (gset (gset schemas "KErrorResponse" kerrSchema)
    "ValidationErrorItem" validationErrorItemSchema)
    "ValidationErrorResponse" validationErrorResponseSchema

/-! ## The recursive schema introspector -/

/-- The mutable schema registry (Go components/schemas map). -/
def Registry : Type := List (String × JVal)

/-- The inline fallback schema of schemaRef and reflectSchema. -/
def objSchema : JVal := .obj [("type", .str "object")]

/-- The ref object returned by schemaRef for a registered name. -/
def refObj (name : String) : JVal :=
  .obj [("$ref", .str ("#/components/schemas/" ++ name))]

/-- The schema object assembled at the end of reflectSchema from the
accumulated properties and required names. -/
def mkSchemaObj (props : List (String × JVal)) (req : List String) : JVal :=
  .obj ([("type", .str "object"), ("properties", .obj props)]
    ++ (if req.isEmpty then [] else [("required", .arr (req.map .str))]))

/-- The serialized field name of the reflectSchema loop: skip when the
json tag is empty or a dash, take the part before the first comma, skip
again when that is empty or a dash. -/
def emitName (tags : GoTags) : Option String :=
  if tags.jsonTag = "" ∨ tags.jsonTag = "-" then none
  else
    let name := (goSplit tags.jsonTag ',').headD ""
    if name = "" ∨ name = "-" then none else some name

/-- The universal metadata enrichment of the reflectSchema loop: doc,
example and default tags apply to every field kind. -/
def enrichUniversal (tags : GoTags) (prop0 : JVal) : JVal :=
  let p1 := if tags.docTag ≠ "" then jset prop0 "description" (.str tags.docTag) else prop0
  let p2 := if tags.exampleTag ≠ "" then jset p1 "example" (.str tags.exampleTag) else p1
  if tags.defaultTag ≠ "" then jset p2 "default" (.str tags.defaultTag) else p2

/-- The format enrichment of the reflectSchema loop: an explicit format
tag wins; otherwise email, uuid, url validation tokens infer a format
when none is present. -/
def enrichFormat (tags : GoTags) (p : JVal) : JVal :=
  if tags.formatTag ≠ "" then jset p "format" (.str tags.formatTag)
  else if (jget p "format").isNone then
    if goContains tags.validateTag "email" then jset p "format" (.str "email")
    else if goContains tags.validateTag "uuid" then jset p "format" (.str "uuid")
    else if goContains tags.validateTag "url" then jset p "format" (.str "uri")
    else p
  else p

/-- The check the min and max enrichments make on the property's current
OpenAPI type. -/
def isStringProp (p : JVal) : Bool :=
  match jget p "type" with
  | some (.str s) => s = "string"
  | _ => false

/-- The min enrichment: minLength on strings, minimum otherwise. -/
def enrichMin (v : String) (p : JVal) : JVal :=
  if extractParam v "min" ≠ "" then
    if isStringProp p then jset p "minLength" (.num (toInt (extractParam v "min")))
    else jset p "minimum" (.num (toInt (extractParam v "min")))
  else p

/-- The max enrichment: maxLength on strings, maximum otherwise. -/
def enrichMax (v : String) (p : JVal) : JVal :=
  if extractParam v "max" ≠ "" then
    if isStringProp p then jset p "maxLength" (.num (toInt (extractParam v "max")))
    else jset p "maximum" (.num (toInt (extractParam v "max")))
  else p

/-- The oneof enrichment: an enum of the space-separated tokens. -/
def enrichOneof (v : String) (p : JVal) : JVal :=
  if extractParam v "oneof" ≠ "" then
    jset p "enum" (.arr ((goSplit (extractParam v "oneof") ' ').map .str))
  else p

/-- The per-field enrichment of the reflectSchema loop: universal tags
(doc, example, default) on every field, then format, min, max and oneof
only on primitive kinds. -/
def enrichProp (tags : GoTags) (typ : GoType) (prop0 : JVal) : JVal :=
  let p3 := enrichUniversal tags prop0
  if isPrimitiveKind typ then
    enrichOneof tags.validateTag (enrichMax tags.validateTag
      (enrichMin tags.validateTag (enrichFormat tags p3)))
  else p3

/-- A pending call of the recursive introspector: schemaRef (sref),
reflectSchema (refl), the field loop of reflectSchema (fields, with the
accumulated properties and required names), or fieldSchema (fschema). -/
inductive Task where
  | sref (v : Option GoType)
  | refl (v : Option GoType)
  | fields (fs : List (GoTags × GoType)) (props : List (String × JVal)) (req : List String)
  | fschema (t : GoType)

/-- The fuel-indexed interpreter for the mutually recursive Go functions
schemaRef, reflectSchema (with its field loop) and fieldSchema.  Every
recursive call consumes one unit of fuel; a result of none for every
fuel models a nonterminating recursion. -/
def run (env : Env) : Nat → Task → Registry → Option (JVal × Registry)
  | 0, _, _ => none
  | fuel + 1, τ, σ =>
    match τ with
    | .sref v =>
      match v with
      | none => some (objSchema, σ)
      | some t0 =>
        let t := derefOnce t0
        match structNameOf t with
        | none => some (objSchema, σ)
        | some name =>
          if name = "" then run env fuel (.refl v) σ
          else
            match glookup σ name with
            | some _ => some (refObj name, σ)
            | none =>
              match run env fuel (.refl v) σ with
              | none => none
              | some (s, σ₁) => some (refObj name, gset σ₁ name s)
    | .refl v =>
      match v with
      | none => some (objSchema, σ)
      | some t0 =>
        let t := derefOnce t0
        match structNameOf t with
        | none => some (objSchema, σ)
        | some _ => run env fuel (.fields (fieldsOf env t) [] []) σ
    | .fields fs props req =>
      match fs with
      | [] => some (mkSchemaObj props req, σ)
      | (tags, typ) :: rest =>
        match emitName tags with
        | none => run env fuel (.fields rest props req) σ
        | some name =>
          match run env fuel (.fschema typ) σ with
          | none => none
          | some (prop0, σ₁) =>
            let prop := enrichProp tags typ prop0
            let req' := if goContains tags.validateTag "required" then req ++ [name] else req
            run env fuel (.fields rest (gset props name prop) req') σ₁
    | .fschema t =>
      match t with
      | .timeT => some (.obj [("type", .str "string"), ("format", .str "date-time")], σ)
      | .named _ => run env fuel (.sref (some t)) σ
      | .anon _ => run env fuel (.sref (some t)) σ
      | .slice e =>
        let elem := derefOnce e
        if isStructKind elem then
          match run env fuel (.sref (some elem)) σ with
          | none => none
          | some (s, σ₁) => some (.obj [("type", .str "array"), ("items", s)], σ₁)
        else
          some (.obj [("type", .str "array"),
            ("items", .obj [("type", .str (goTypeToOA elem).1)])], σ)
      | .ptr e =>
        if isStructKind e then
          match run env fuel (.sref (some e)) σ with
          | none => none
          | some (s, σ₁) => some (.obj [("allOf", .arr [s]), ("nullable", .bool true)], σ₁)
        else
          let oa := goTypeToOA e
          some (.obj ([("type", .str oa.1), ("nullable", .bool true)]
            ++ (if oa.2 ≠ "" then [("format", .str oa.2)] else [])), σ)
      | .dict =>
        some (.obj [("type", .str "object"), ("additionalProperties", .bool true)], σ)
      | _ =>
        let oa := goTypeToOA t
        some (.obj ([("type", .str oa.1)]
          ++ (if oa.2 ≠ "" then [("format", .str oa.2)] else [])), σ)

/-- Go schemaRef: register a struct as a named schema and return a ref;
inline fallback for anonymous or non-struct types. -/
def schemaRef (env : Env) (fuel : Nat) (v : Option GoType) (σ : Registry) :
    Option (JVal × Registry) :=
  run env fuel (.sref v) σ

/-- Go reflectSchema: an OpenAPI object schema from a struct type. -/
def reflectSchema (env : Env) (fuel : Nat) (v : Option GoType) (σ : Registry) :
    Option (JVal × Registry) :=
  run env fuel (.refl v) σ

/-- Go fieldSchema: an OpenAPI schema for a single struct field. -/
def fieldSchema (env : Env) (fuel : Nat) (t : GoType) (σ : Registry) :
    Option (JVal × Registry) :=
  run env fuel (.fschema t) σ

/-! ## Responses, request bodies and the document assembler -/

/-- Go buildRequestBody. -/
def buildRequestBody (env : Env) (fuel : Nat) (dto : GoType) (σ : Registry) :
    Option (JVal × Registry) :=
  match schemaRef env fuel (some dto) σ with
  | none => none
  | some (s, σ₁) =>
    some (.obj [("required", .bool true),
      ("content", .obj [("application/json", .obj [("schema", s)])])], σ₁)

/-- The effective status code of buildResponses: 200 when the route's
code is zero. -/
def effectiveCode (route : RouteInput) : Int :=
  if route.StatusCode = 0 then 200 else route.StatusCode

/-- The success response object of buildResponses. -/
def successEnvelope (s : JVal) : JVal :=
  .obj [("description", .str "Success"),
        ("content", .obj [("application/json", .obj [("schema", s)])])]

/-- Go buildResponses: the declared success response, then the auto error
responses merged over it. -/
def buildResponses (env : Env) (fuel : Nat) (route : RouteInput) (σ : Registry) :
    Option (List (String × JVal) × Registry) :=
  let base : Option (List (String × JVal) × Registry) :=
    match route.Response with
    | none => some ([], σ)
    | some T =>
      match schemaRef env fuel (some T) σ with
      | none => none
      | some (s, σ₁) => some ([(goItoa (effectiveCode route), successEnvelope s)], σ₁)
  match base with
  | none => none
  | some (resp, σ₁) => some (gmerge resp (buildAutoErrorResponses route), σ₁)

/-- The accumulated state of the Build loop: the paths map, the schema
registry and the security-scheme map. -/
structure BuildState where
  paths : List (String × JVal)
  schemas : Registry
  securitySchemes : List (String × SecurityScheme)

/-- The security-scheme registration loop of Build. -/
def registerSchemes (m : List (String × SecurityScheme)) (schemes : List String) :
    List (String × SecurityScheme) :=
  schemes.foldl (fun acc scheme =>
    if (glookup acc scheme).isNone then gset acc scheme (inferSecurityScheme scheme)
    else acc) m

/-- The body of the Build loop for one route; none models a Go panic in
generateOperationID or a nonterminating schema reflection. -/
def processRoute (env : Env) (fuel : Nat) (st : BuildState) (route : RouteInput) :
    Option BuildState :=
  let oaPath := fiberPathToOA route.Path
  let paths0 := if (glookup st.paths oaPath).isNone then gset st.paths oaPath (.obj [])
                else st.paths
  match buildResponses env fuel route st.schemas with
  | none => none
  | some (responses, σ₁) =>
    match generateOperationID route.Method route.Path with
    | none => none
    | some opId =>
      let operation0 : List (String × JVal) :=
        [("summary", .str route.Summary), ("description", .str route.Description),
         ("tags", .arr (route.Tags.map .str)), ("responses", .obj responses),
         ("operationId", .str opId)]
      let parameters := buildPathParameters route.Path ++ buildQueryParameters route.QueryParams
      let operation1 :=
        if parameters.length > 0 then gset operation0 "parameters" (.arr parameters)
        else operation0
      let withBody : Option (List (String × JVal) × Registry) :=
        match route.Body with
        | none => some (operation1, σ₁)
        | some b =>
          match buildRequestBody env fuel b σ₁ with
          | none => none
          | some (rb, σ₂) => some (gset operation1 "requestBody" rb, σ₂)
      match withBody with
      | none => none
      | some (operation2, σ₂) =>
        let operation3 :=
          if route.Secured.isEmpty then operation2
          else gset operation2 "security"
            (.arr (route.Secured.map (fun scheme => JVal.obj [(scheme, .arr [])])))
        let sec₁ :=
          if route.Secured.isEmpty then st.securitySchemes
          else registerSchemes st.securitySchemes route.Secured
        let operation4 :=
          if route.Deprecated then gset operation3 "deprecated" (.bool true) else operation3
        let methodL := goLower route.Method
        let inner : List (String × JVal) :=
          match glookup paths0 oaPath with
          | some (.obj m) => m
          | _ => []
        some ⟨gset paths0 oaPath (.obj (gset inner methodL (.obj operation4))),
              σ₂, sec₁⟩

/-- Go Build: the OpenAPI 3.0 spec assembled from the build input.  The
environment carries the ambient named-struct declarations; none models a
build that panics or does not terminate. -/
def Build (env : Env) (fuel : Nat) (input : BuildInput) : Option Spec :=
  match input.Routes.foldlM (processRoute env fuel) ⟨[], registerStandardSchemas [], []⟩ with
  | none => none
  | some st =>
    some ⟨"3.0.0",
          ⟨input.Title, input.Version, input.Description, input.Contact, input.License⟩,
          input.Servers, input.Tags, st.paths, ⟨st.schemas, st.securitySchemes⟩, []⟩

/-! ## Association-list lemmas -/

theorem glookup_gset_self {α : Type} (m : List (String × α)) (k : String) (v : α) :
    glookup (gset m k v) k = some v := by
  induction m with
  | nil => simp [gset, glookup]
  | cons kv rest ih =>
    obtain ⟨k', v'⟩ := kv
    by_cases h : k' = k
    · simp [gset, h, glookup]
    · simp only [gset, if_neg h, glookup]
      rw [if_neg (fun hh => h hh.symm)]
      exact ih

theorem glookup_gset_ne {α : Type} (m : List (String × α)) (k k₂ : String) (v : α)
    (h : k₂ ≠ k) : glookup (gset m k v) k₂ = glookup m k₂ := by
  induction m with
  | nil => simp [gset, glookup, h]
  | cons kv rest ih =>
    obtain ⟨k', v'⟩ := kv
    by_cases hk : k' = k
    · subst hk
      simp only [gset, if_pos rfl, glookup, if_neg h]
    · simp only [gset, if_neg hk, glookup]
      by_cases h2 : k₂ = k'
      · simp [h2]
      · rw [if_neg h2, if_neg h2]
        exact ih

theorem glookup_eq_none_iff {α : Type} (m : List (String × α)) (k : String) :
    glookup m k = none ↔ k ∉ m.map Prod.fst := by
  induction m with
  | nil => simp [glookup]
  | cons kv rest ih =>
    obtain ⟨k', v'⟩ := kv
    by_cases h : k = k'
    · simp [glookup, h]
    · simp [glookup, h, ih]

theorem gset_keys_of_absent {α : Type} (m : List (String × α)) (k : String) (v : α)
    (h : glookup m k = none) : (gset m k v).map Prod.fst = m.map Prod.fst ++ [k] := by
  induction m with
  | nil => simp [gset]
  | cons kv rest ih =>
    obtain ⟨k', v'⟩ := kv
    simp only [glookup] at h
    by_cases hk : k = k'
    · simp [hk] at h
    · rw [if_neg hk] at h
      have : k' = k → False := fun hh => hk hh.symm
      simp only [gset, if_neg this, List.map_cons]
      rw [ih h]
      simp

theorem gset_keys_of_present {α : Type} (m : List (String × α)) (k : String) (v : α)
    (h : (glookup m k).isSome) : (gset m k v).map Prod.fst = m.map Prod.fst := by
  induction m with
  | nil => simp [glookup] at h
  | cons kv rest ih =>
    obtain ⟨k', v'⟩ := kv
    simp only [glookup] at h
    by_cases hk : k = k'
    · subst hk
      simp [gset]
    · rw [if_neg hk] at h
      have : k' = k → False := fun hh => hk hh.symm
      simp only [gset, if_neg this, List.map_cons]
      rw [ih h]

theorem gset_keys_nodup {α : Type} (m : List (String × α)) (k : String) (v : α)
    (h : (m.map Prod.fst).Nodup) : ((gset m k v).map Prod.fst).Nodup := by
  rcases hk : glookup m k with _ | w
  · rw [gset_keys_of_absent m k v hk]
    have hnotin : k ∉ m.map Prod.fst := (glookup_eq_none_iff m k).mp hk
    simp [List.nodup_append, h, hnotin]
  · rw [gset_keys_of_present m k v (by simp [hk])]
    exact h

theorem gmerge_lookup_of_absent {α : Type} (l : List (String × α)) :
    ∀ (base : List (String × α)) (k : String), glookup l k = none →
      glookup (gmerge base l) k = glookup base k := by
  induction l with
  | nil => intro base k _; rfl
  | cons kv rest ih =>
    intro base k h
    obtain ⟨k₀, v₀⟩ := kv
    simp only [glookup] at h
    by_cases hk : k = k₀
    · simp [hk] at h
    · rw [if_neg hk] at h
      show glookup (gmerge (gset base k₀ v₀) rest) k = glookup base k
      rw [ih (gset base k₀ v₀) k h, glookup_gset_ne base k₀ k v₀ hk]

theorem gmerge_lookup_of_mem {α : Type} (l : List (String × α)) :
    ∀ (base : List (String × α)) (k : String) (v : α), (l.map Prod.fst).Nodup →
      glookup l k = some v → glookup (gmerge base l) k = some v := by
  induction l with
  | nil => intro base k v _ h; simp [glookup] at h
  | cons kv rest ih =>
    intro base k v hnd h
    obtain ⟨k₀, v₀⟩ := kv
    simp only [List.map_cons, List.nodup_cons] at hnd
    simp only [glookup] at h
    by_cases hk : k = k₀
    · rw [if_pos hk] at h
      subst hk
      have hrest : glookup rest k = none := by
        rw [glookup_eq_none_iff]
        exact hnd.1
      show glookup (gmerge (gset base k v₀) rest) k = some v
      rw [gmerge_lookup_of_absent rest (gset base k v₀) k hrest,
        glookup_gset_self]
      simpa using h
    · rw [if_neg hk] at h
      exact ih (gset base k₀ v₀) k v hnd.2 h

/-! ## Interpreter lemmas: fuel monotonicity and registry preservation -/

theorem run_preserves (env : Env) :
    ∀ (fuel : Nat) (τ : Task) (σ : Registry) (out : JVal) (σ₂ : Registry),
      run env fuel τ σ = some (out, σ₂) →
      ∀ (k : String) (v : JVal), glookup σ k = some v → glookup σ₂ k = some v := by
  intro fuel
  induction fuel with
  | zero => intro τ σ out σ₂ h; simp [run] at h
  | succ n ih =>
    intro τ σ out σ₂ h k v hk
    match τ with
    | .sref v0 =>
      simp only [run] at h
      match v0 with
      | none =>
        simp only at h
        exact (Prod.mk.injEq _ _ _ _ ▸ (Option.some.injEq _ _ ▸ h)).2 ▸ hk
      | some t0 =>
        simp only at h
        rcases hs : structNameOf (derefOnce t0) with _ | name
        · rw [hs] at h
          simp only at h
          obtain ⟨-, h2⟩ := Prod.mk.injEq _ _ _ _ ▸ (Option.some.injEq _ _ ▸ h)
          exact h2 ▸ hk
        · rw [hs] at h
          simp only at h
          by_cases hname : name = ""
          · rw [if_pos hname] at h
            exact ih _ _ _ _ h k v hk
          · rw [if_neg hname] at h
            rcases hlk : glookup σ name with _ | w
            · rw [hlk] at h
              rcases hrun : run env n (.refl (some t0)) σ with _ | p
              · rw [hrun] at h; exact absurd h (by simp)
              · obtain ⟨s, σ₁⟩ := p
                rw [hrun] at h
                simp only at h
                obtain ⟨-, h2⟩ := Prod.mk.injEq _ _ _ _ ▸ (Option.some.injEq _ _ ▸ h)
                have h1 : glookup σ₁ k = some v := ih _ _ _ _ hrun k v hk
                have hne : k ≠ name := by
                  intro hkn
                  rw [hkn, hlk] at hk
                  exact Option.noConfusion hk
                rw [← h2, glookup_gset_ne σ₁ name k s hne]
                exact h1
            · rw [hlk] at h
              simp only at h
              obtain ⟨-, h2⟩ := Prod.mk.injEq _ _ _ _ ▸ (Option.some.injEq _ _ ▸ h)
              exact h2 ▸ hk
    | .refl v0 =>
      simp only [run] at h
      match v0 with
      | none =>
        simp only at h
        obtain ⟨-, h2⟩ := Prod.mk.injEq _ _ _ _ ▸ (Option.some.injEq _ _ ▸ h)
        exact h2 ▸ hk
      | some t0 =>
        simp only at h
        rcases hs : structNameOf (derefOnce t0) with _ | name
        · rw [hs] at h
          simp only at h
          obtain ⟨-, h2⟩ := Prod.mk.injEq _ _ _ _ ▸ (Option.some.injEq _ _ ▸ h)
          exact h2 ▸ hk
        · rw [hs] at h
          simp only at h
          exact ih _ _ _ _ h k v hk
    | .fields fs props req =>
      simp only [run] at h
      match fs with
      | [] =>
        simp only at h
        obtain ⟨-, h2⟩ := Prod.mk.injEq _ _ _ _ ▸ (Option.some.injEq _ _ ▸ h)
        exact h2 ▸ hk
      | (tags, typ) :: rest =>
        simp only at h
        rcases he : emitName tags with _ | name
        · rw [he] at h
          exact ih _ _ _ _ h k v hk
        · rw [he] at h
          rcases hrun : run env n (.fschema typ) σ with _ | p
          · rw [hrun] at h; exact absurd h (by simp)
          · obtain ⟨prop0, σ₁⟩ := p
            rw [hrun] at h
            simp only at h
            have h1 : glookup σ₁ k = some v := ih _ _ _ _ hrun k v hk
            exact ih _ _ _ _ h k v h1
    | .fschema t =>
      simp only [run] at h
      match t with
      | .timeT =>
        simp only at h
        obtain ⟨-, h2⟩ := Prod.mk.injEq _ _ _ _ ▸ (Option.some.injEq _ _ ▸ h)
        exact h2 ▸ hk
      | .named nm => exact ih _ _ _ _ h k v hk
      | .anon fs2 => exact ih _ _ _ _ h k v hk
      | .slice e =>
        simp only at h
        by_cases hst : isStructKind (derefOnce e)
        · rw [if_pos hst] at h
          rcases hrun : run env n (.sref (some (derefOnce e))) σ with _ | p
          · rw [hrun] at h; exact absurd h (by simp)
          · obtain ⟨s, σ₁⟩ := p
            rw [hrun] at h
            simp only at h
            obtain ⟨-, h2⟩ := Prod.mk.injEq _ _ _ _ ▸ (Option.some.injEq _ _ ▸ h)
            exact h2 ▸ ih _ _ _ _ hrun k v hk
        · rw [if_neg hst] at h
          obtain ⟨-, h2⟩ := Prod.mk.injEq _ _ _ _ ▸ (Option.some.injEq _ _ ▸ h)
          exact h2 ▸ hk
      | .ptr e =>
        simp only at h
        by_cases hst : isStructKind e
        · rw [if_pos hst] at h
          rcases hrun : run env n (.sref (some e)) σ with _ | p
          · rw [hrun] at h; exact absurd h (by simp)
          · obtain ⟨s, σ₁⟩ := p
            rw [hrun] at h
            simp only at h
            obtain ⟨-, h2⟩ := Prod.mk.injEq _ _ _ _ ▸ (Option.some.injEq _ _ ▸ h)
            exact h2 ▸ ih _ _ _ _ hrun k v hk
        · rw [if_neg hst] at h
          obtain ⟨-, h2⟩ := Prod.mk.injEq _ _ _ _ ▸ (Option.some.injEq _ _ ▸ h)
          exact h2 ▸ hk
      | .dict =>
        simp only at h
        obtain ⟨-, h2⟩ := Prod.mk.injEq _ _ _ _ ▸ (Option.some.injEq _ _ ▸ h)
        exact h2 ▸ hk
      | .prim kk =>
        simp only at h
        obtain ⟨-, h2⟩ := Prod.mk.injEq _ _ _ _ ▸ (Option.some.injEq _ _ ▸ h)
        exact h2 ▸ hk

theorem run_mono (env : Env) :
    ∀ (f g : Nat) (τ : Task) (σ : Registry) (r : JVal × Registry),
      f ≤ g → run env f τ σ = some r → run env g τ σ = some r := by
  intro f
  induction f with
  | zero => intro g τ σ r _ h; simp [run] at h
  | succ n ih =>
    intro g τ σ r hle h
    cases g with
    | zero => exact absurd hle (by omega)
    | succ g2 =>
      have hng : n ≤ g2 := by omega
      match τ with
      | .sref v0 =>
        simp only [run] at h ⊢
        match v0 with
        | none => exact h
        | some t0 =>
          dsimp only at h ⊢
          rcases hs : structNameOf (derefOnce t0) with _ | name
          · rw [hs] at h
            exact h
          · rw [hs] at h
            dsimp only at h ⊢
            by_cases hname : name = ""
            · rw [if_pos hname] at h ⊢
              exact ih g2 _ _ _ hng h
            · rw [if_neg hname] at h ⊢
              rcases hlk : glookup σ name with _ | w
              · rw [hlk] at h
                dsimp only at h ⊢
                rcases hrun : run env n (.refl (some t0)) σ with _ | p
                · rw [hrun] at h; exact absurd h (by simp)
                · rw [hrun] at h
                  rw [ih g2 _ _ _ hng hrun]
                  exact h
              · rw [hlk] at h
                exact h
      | .refl v0 =>
        simp only [run] at h ⊢
        match v0 with
        | none => exact h
        | some t0 =>
          dsimp only at h ⊢
          rcases hs : structNameOf (derefOnce t0) with _ | name
          · rw [hs] at h
            exact h
          · rw [hs] at h
            dsimp only at h ⊢
            exact ih g2 _ _ _ hng h
      | .fields fs props req =>
        simp only [run] at h ⊢
        match fs with
        | [] => exact h
        | (tags, typ) :: rest =>
          dsimp only at h ⊢
          rcases he : emitName tags with _ | name
          · rw [he] at h
            dsimp only at h ⊢
            exact ih g2 _ _ _ hng h
          · rw [he] at h
            dsimp only at h ⊢
            rcases hrun : run env n (.fschema typ) σ with _ | p
            · rw [hrun] at h; exact absurd h (by simp)
            · obtain ⟨prop0, σ₁⟩ := p
              rw [hrun] at h
              rw [ih g2 _ _ _ hng hrun]
              dsimp only at h ⊢
              exact ih g2 _ _ _ hng h
      | .fschema t =>
        simp only [run] at h ⊢
        match t with
        | .timeT => exact h
        | .named nm => exact ih g2 _ _ _ hng h
        | .anon fs2 => exact ih g2 _ _ _ hng h
        | .slice e =>
          dsimp only at h ⊢
          by_cases hst : isStructKind (derefOnce e)
          · rw [if_pos hst] at h ⊢
            rcases hrun : run env n (.sref (some (derefOnce e))) σ with _ | p
            · rw [hrun] at h; exact absurd h (by simp)
            · rw [hrun] at h
              rw [ih g2 _ _ _ hng hrun]
              exact h
          · rw [if_neg hst] at h ⊢; exact h
        | .ptr e =>
          dsimp only at h ⊢
          by_cases hst : isStructKind e
          · rw [if_pos hst] at h ⊢
            rcases hrun : run env n (.sref (some e)) σ with _ | p
            · rw [hrun] at h; exact absurd h (by simp)
            · rw [hrun] at h
              rw [ih g2 _ _ _ hng hrun]
              exact h
          · rw [if_neg hst] at h ⊢; exact h
        | .dict => exact h
        | .prim kk => exact h

/-! ## Build-level helper notions and lemmas -/

/-- The key under which a route's operation is stored: the brace-notation
path and the lowercased method. -/
def routeKey (r : RouteInput) : String × String :=
  (fiberPathToOA r.Path, goLower r.Method)

/-- The operation object stored in the paths map at a path/method key. -/
def opLookup (paths : List (String × JVal)) (k : String × String) :
    Option (List (String × JVal)) :=
  match glookup paths k.1 with
  | some (.obj inner) =>
    match glookup inner k.2 with
    | some (.obj op) => some op
    | _ => none
  | _ => none

theorem registerSchemes_preserves (ss : List String) :
    ∀ (m : List (String × SecurityScheme)) (k : String) (v : SecurityScheme),
      glookup m k = some v → glookup (registerSchemes m ss) k = some v := by
  induction ss with
  | nil => intro m k v h; exact h
  | cons s rest ih =>
    intro m k v h
    show glookup (registerSchemes
      (if (glookup m s).isNone then gset m s (inferSecurityScheme s) else m) rest) k = some v
    by_cases hs : (glookup m s).isNone
    · rw [if_pos hs]
      have hne : k ≠ s := by
        intro hkeq
        rw [hkeq] at h
        rw [h] at hs
        simp at hs
      exact ih _ k v (by rw [glookup_gset_ne m s k _ hne]; exact h)
    · rw [if_neg hs]
      exact ih m k v h

theorem registerSchemes_nodup (ss : List String) :
    ∀ (m : List (String × SecurityScheme)), (m.map Prod.fst).Nodup →
      ((registerSchemes m ss).map Prod.fst).Nodup := by
  induction ss with
  | nil => intro m h; exact h
  | cons s rest ih =>
    intro m h
    show ((registerSchemes
      (if (glookup m s).isNone then gset m s (inferSecurityScheme s) else m) rest).map Prod.fst).Nodup
    by_cases hs : (glookup m s).isNone
    · rw [if_pos hs]
      exact ih _ (gset_keys_nodup m s _ h)
    · rw [if_neg hs]
      exact ih m h

theorem registerSchemes_inferred (ss : List String) :
    ∀ (m : List (String × SecurityScheme)),
      (∀ k v, glookup m k = some v → v = inferSecurityScheme k) →
      ∀ k v, glookup (registerSchemes m ss) k = some v → v = inferSecurityScheme k := by
  induction ss with
  | nil => intro m h; exact h
  | cons s rest ih =>
    intro m h k v hk
    rw [show registerSchemes m (s :: rest) = registerSchemes
      (if (glookup m s).isNone then gset m s (inferSecurityScheme s) else m) rest from rfl] at hk
    by_cases hs : (glookup m s).isNone
    · rw [if_pos hs] at hk
      refine ih _ ?_ k v hk
      intro k2 v2 hk2
      by_cases hks : k2 = s
      · subst hks
        rw [glookup_gset_self] at hk2
        exact (Option.some.inj hk2).symm
      · rw [glookup_gset_ne m s k2 _ hks] at hk2
        exact h k2 v2 hk2
    · rw [if_neg hs] at hk
      exact ih m h k v hk

theorem registerSchemes_mem (ss : List String) :
    ∀ (m : List (String × SecurityScheme)) (s : String), s ∈ ss →
      (glookup (registerSchemes m ss) s).isSome := by
  induction ss with
  | nil => intro m s h; simp at h
  | cons s0 rest ih =>
    intro m s hmem
    rw [show registerSchemes m (s0 :: rest) = registerSchemes
      (if (glookup m s0).isNone then gset m s0 (inferSecurityScheme s0) else m) rest from rfl]
    rcases List.mem_cons.mp hmem with heq | htail
    · subst heq
      have hsome : (glookup (if (glookup m s).isNone then
          gset m s (inferSecurityScheme s) else m) s).isSome := by
        by_cases hs : (glookup m s).isNone
        · rw [if_pos hs, glookup_gset_self]; rfl
        · rw [if_neg hs]
          rcases ho2 : glookup m s with _ | w
          · exact absurd (by rw [ho2]; rfl) hs
          · rfl
      rcases ho : glookup (if (glookup m s).isNone then
          gset m s (inferSecurityScheme s) else m) s with _ | w
      · rw [ho] at hsome; simp at hsome
      · have := registerSchemes_preserves rest _ s w ho
        rw [this]; rfl
    · exact ih _ s htail

theorem buildResponses_preserves (env : Env) (fuel : Nat) (route : RouteInput)
    (σ : Registry) (resp : List (String × JVal)) (σ₁ : Registry)
    (h : buildResponses env fuel route σ = some (resp, σ₁)) :
    ∀ k v, glookup σ k = some v → glookup σ₁ k = some v := by
  intro k v hk
  unfold buildResponses at h
  rcases hT : route.Response with _ | T
  · rw [hT] at h
    dsimp only at h
    obtain ⟨-, h2⟩ := Prod.mk.injEq _ _ _ _ ▸ (Option.some.injEq _ _ ▸ h)
    exact h2 ▸ hk
  · rw [hT] at h
    dsimp only at h
    rcases hrun : schemaRef env fuel (some T) σ with _ | p
    · rw [hrun] at h; exact absurd h (by simp)
    · obtain ⟨s, σ₂⟩ := p
      rw [hrun] at h
      dsimp only at h
      obtain ⟨-, h2⟩ := Prod.mk.injEq _ _ _ _ ▸ (Option.some.injEq _ _ ▸ h)
      exact h2 ▸ run_preserves env fuel _ σ s σ₂ hrun k v hk

theorem processRouteTail (r : RouteInput) (stPaths : List (String × JVal))
    (σs σ₂ : Registry) (sec0 : List (String × SecurityScheme))
    (op2 paths0 inner : List (String × JVal)) (st' : BuildState)
    (hs : glookup op2 "security" = none)
    (hp : glookup op2 "parameters" =
      (if (buildPathParameters r.Path ++ buildQueryParameters r.QueryParams).length > 0
       then some (.arr (buildPathParameters r.Path ++ buildQueryParameters r.QueryParams))
       else none))
    (hpres : ∀ k v, glookup σs k = some v → glookup σ₂ k = some v)
    (hp0 : ∀ k, k ≠ fiberPathToOA r.Path → glookup paths0 k = glookup stPaths k)
    (hinner : ∀ m2, glookup inner m2 =
      (match glookup stPaths (fiberPathToOA r.Path) with
       | some (.obj m) => glookup m m2
       | _ => none))
    (hst : st'.paths = gset paths0 (fiberPathToOA r.Path)
        (.obj (gset inner (goLower r.Method) (.obj (
          if r.Deprecated then
            gset (if r.Secured.isEmpty then op2
              else gset op2 "security"
                (.arr (r.Secured.map (fun scheme => JVal.obj [(scheme, .arr [])]))))
              "deprecated" (.bool true)
          else (if r.Secured.isEmpty then op2
            else gset op2 "security"
              (.arr (r.Secured.map (fun scheme => JVal.obj [(scheme, .arr [])])))))))))
    (hschem : st'.schemas = σ₂)
    (hsec2 : st'.securitySchemes =
      (if r.Secured.isEmpty then sec0 else registerSchemes sec0 r.Secured)) :
    (∃ op, opLookup st'.paths (routeKey r) = some op ∧
      glookup op "security" = (if r.Secured.isEmpty then none
        else some (.arr (r.Secured.map (fun scheme => JVal.obj [(scheme, .arr [])])))) ∧
      glookup op "parameters" =
        (if (buildPathParameters r.Path ++ buildQueryParameters r.QueryParams).length > 0
         then some (.arr (buildPathParameters r.Path ++ buildQueryParameters r.QueryParams))
         else none)) ∧
    st'.securitySchemes = (if r.Secured.isEmpty then sec0
      else registerSchemes sec0 r.Secured) ∧
    (∀ k v, glookup σs k = some v → glookup st'.schemas k = some v) ∧
    (∀ pk, pk ≠ routeKey r → opLookup st'.paths pk = opLookup stPaths pk) := by
  have hop4 : ∀ key, key ≠ "deprecated" → key ≠ "security" →
      glookup (if r.Deprecated then
            gset (if r.Secured.isEmpty then op2
              else gset op2 "security"
                (.arr (r.Secured.map (fun scheme => JVal.obj [(scheme, .arr [])]))))
              "deprecated" (.bool true)
          else (if r.Secured.isEmpty then op2
            else gset op2 "security"
              (.arr (r.Secured.map (fun scheme => JVal.obj [(scheme, .arr [])]))))) key
        = glookup op2 key := by
    intro key hd hsec
    by_cases hdep : r.Deprecated
    · rw [if_pos hdep, glookup_gset_ne _ _ _ _ hd]
      by_cases hse : r.Secured.isEmpty
      · rw [if_pos hse]
      · rw [if_neg hse, glookup_gset_ne _ _ _ _ hsec]
    · rw [if_neg hdep]
      by_cases hse : r.Secured.isEmpty
      · rw [if_pos hse]
      · rw [if_neg hse, glookup_gset_ne _ _ _ _ hsec]
  have hop4sec : glookup (if r.Deprecated then
            gset (if r.Secured.isEmpty then op2
              else gset op2 "security"
                (.arr (r.Secured.map (fun scheme => JVal.obj [(scheme, .arr [])]))))
              "deprecated" (.bool true)
          else (if r.Secured.isEmpty then op2
            else gset op2 "security"
              (.arr (r.Secured.map (fun scheme => JVal.obj [(scheme, .arr [])]))))) "security"
        = (if r.Secured.isEmpty then none
           else some (.arr (r.Secured.map (fun scheme => JVal.obj [(scheme, .arr [])])))) := by
    have hinner2 : glookup (if r.Secured.isEmpty then op2
            else gset op2 "security"
              (.arr (r.Secured.map (fun scheme => JVal.obj [(scheme, .arr [])])))) "security"
        = (if r.Secured.isEmpty then none
           else some (.arr (r.Secured.map (fun scheme => JVal.obj [(scheme, .arr [])])))) := by
      by_cases hse : r.Secured.isEmpty
      · rw [if_pos hse, if_pos hse, hs]
      · rw [if_neg hse, if_neg hse, glookup_gset_self]
    by_cases hdep : r.Deprecated
    · rw [if_pos hdep, glookup_gset_ne _ _ _ _ (by decide), hinner2]
    · rw [if_neg hdep, hinner2]
  have hlk : opLookup st'.paths (routeKey r) = some (if r.Deprecated then
            gset (if r.Secured.isEmpty then op2
              else gset op2 "security"
                (.arr (r.Secured.map (fun scheme => JVal.obj [(scheme, .arr [])]))))
              "deprecated" (.bool true)
          else (if r.Secured.isEmpty then op2
            else gset op2 "security"
              (.arr (r.Secured.map (fun scheme => JVal.obj [(scheme, .arr [])]))))) := by
    rw [hst]
    show opLookup _ (fiberPathToOA r.Path, goLower r.Method) = some _
    unfold opLookup
    rw [glookup_gset_self]
    dsimp only
    rw [glookup_gset_self]
  constructor
  · refine ⟨_, hlk, ?_, ?_⟩
    · exact hop4sec
    · rw [hop4 "parameters" (by decide) (by decide)]
      exact hp
  refine ⟨hsec2, ?_, ?_⟩
  · intro k v hk
    rw [hschem]
    exact hpres k v hk
  · intro pk hpk
    rw [hst]
    unfold opLookup
    by_cases h1 : pk.1 = fiberPathToOA r.Path
    · have h2 : pk.2 ≠ goLower r.Method := by
        intro h2
        exact hpk (Prod.ext h1 h2)
      rw [h1, glookup_gset_self]
      dsimp only
      rw [glookup_gset_ne _ _ _ _ h2, hinner pk.2]
      rcases hsp : glookup stPaths (fiberPathToOA r.Path) with _ | w
      · dsimp only
      · cases w <;> dsimp only
    · rw [glookup_gset_ne _ _ _ _ h1, hp0 pk.1 h1]

theorem buildRequestBody_preserves (env : Env) (fuel : Nat) (b : GoType)
    (σ : Registry) (rb : JVal) (σ₂ : Registry)
    (h : buildRequestBody env fuel b σ = some (rb, σ₂)) :
    ∀ k v, glookup σ k = some v → glookup σ₂ k = some v := by
  intro k v hk
  unfold buildRequestBody at h
  rcases hrun : schemaRef env fuel (some b) σ with _ | p
  · rw [hrun] at h; exact absurd h (by simp)
  · obtain ⟨s, σ₁⟩ := p
    rw [hrun] at h
    dsimp only at h
    obtain ⟨-, h2⟩ := Prod.mk.injEq _ _ _ _ ▸ (Option.some.injEq _ _ ▸ h)
    exact h2 ▸ run_preserves env fuel _ σ s σ₁ hrun k v hk

set_option maxHeartbeats 1000000 in
theorem processRoute_spec (env : Env) (fuel : Nat) (st : BuildState) (r : RouteInput)
    (st' : BuildState) (h : processRoute env fuel st r = some st') :
    (∃ op, opLookup st'.paths (routeKey r) = some op ∧
      glookup op "security" = (if r.Secured.isEmpty then none
        else some (.arr (r.Secured.map (fun scheme => JVal.obj [(scheme, .arr [])])))) ∧
      glookup op "parameters" =
        (if (buildPathParameters r.Path ++ buildQueryParameters r.QueryParams).length > 0
         then some (.arr (buildPathParameters r.Path ++ buildQueryParameters r.QueryParams))
         else none)) ∧
    st'.securitySchemes = (if r.Secured.isEmpty then st.securitySchemes
      else registerSchemes st.securitySchemes r.Secured) ∧
    (∀ k v, glookup st.schemas k = some v → glookup st'.schemas k = some v) ∧
    (∀ pk, pk ≠ routeKey r → opLookup st'.paths pk = opLookup st.paths pk) := by
  unfold processRoute at h
  rcases hbr : buildResponses env fuel r st.schemas with _ | p
  · rw [hbr] at h; exact absurd h (by simp)
  obtain ⟨responses, σ₁⟩ := p
  rw [hbr] at h
  dsimp only at h
  rcases hop : generateOperationID r.Method r.Path with _ | opId
  · rw [hop] at h; exact absurd h (by simp)
  rw [hop] at h
  dsimp only at h
  have hop0 : ∀ key, key ≠ "summary" → key ≠ "description" → key ≠ "tags" →
      key ≠ "responses" → key ≠ "operationId" →
      glookup [("summary", JVal.str r.Summary), ("description", JVal.str r.Description),
        ("tags", JVal.arr (r.Tags.map .str)), ("responses", JVal.obj responses),
        ("operationId", JVal.str opId)] key = none := by
    intro key h1 h2 h3 h4 h5
    simp [glookup, h1, h2, h3, h4, h5]
  rcases hb : r.Body with _ | b
  · rw [hb] at h
    dsimp only at h
    have hinj := Option.some.inj h
    refine processRouteTail r st.paths st.schemas σ₁ st.securitySchemes _ _ _ st'
      ?_ ?_ ?_ ?_ ?_ (congrArg BuildState.paths hinj).symm
      (congrArg BuildState.schemas hinj).symm
      (congrArg BuildState.securitySchemes hinj).symm
    · by_cases hpl : (buildPathParameters r.Path ++ buildQueryParameters r.QueryParams).length > 0
      · rw [if_pos hpl, glookup_gset_ne _ _ _ _ (by decide)]
        exact hop0 "security" (by decide) (by decide) (by decide) (by decide) (by decide)
      · rw [if_neg hpl]
        exact hop0 "security" (by decide) (by decide) (by decide) (by decide) (by decide)
    · by_cases hpl : (buildPathParameters r.Path ++ buildQueryParameters r.QueryParams).length > 0
      · rw [if_pos hpl, if_pos hpl, glookup_gset_self]
      · rw [if_neg hpl, if_neg hpl]
        exact hop0 "parameters" (by decide) (by decide) (by decide) (by decide) (by decide)
    · exact buildResponses_preserves env fuel r st.schemas responses σ₁ hbr
    · intro k hk
      by_cases hpn : (glookup st.paths (fiberPathToOA r.Path)).isNone
      · rw [if_pos hpn, glookup_gset_ne _ _ _ _ hk]
      · rw [if_neg hpn]
    · intro m2
      rcases hpn : glookup st.paths (fiberPathToOA r.Path) with _ | w
      · simp [glookup_gset_self, glookup]
      · cases w <;> simp [glookup, hpn]
  · rw [hb] at h
    dsimp only at h
    rcases hrb : buildRequestBody env fuel b σ₁ with _ | q
    · rw [hrb] at h; exact absurd h (by simp)
    obtain ⟨rb, σ₂⟩ := q
    rw [hrb] at h
    dsimp only at h
    have hinj := Option.some.inj h
    refine processRouteTail r st.paths st.schemas σ₂ st.securitySchemes _ _ _ st'
      ?_ ?_ ?_ ?_ ?_ (congrArg BuildState.paths hinj).symm
      (congrArg BuildState.schemas hinj).symm
      (congrArg BuildState.securitySchemes hinj).symm
    · rw [glookup_gset_ne _ _ _ _ (by decide)]
      by_cases hpl : (buildPathParameters r.Path ++ buildQueryParameters r.QueryParams).length > 0
      · rw [if_pos hpl, glookup_gset_ne _ _ _ _ (by decide)]
        exact hop0 "security" (by decide) (by decide) (by decide) (by decide) (by decide)
      · rw [if_neg hpl]
        exact hop0 "security" (by decide) (by decide) (by decide) (by decide) (by decide)
    · rw [glookup_gset_ne _ _ _ _ (by decide)]
      by_cases hpl : (buildPathParameters r.Path ++ buildQueryParameters r.QueryParams).length > 0
      · rw [if_pos hpl, if_pos hpl, glookup_gset_self]
      · rw [if_neg hpl, if_neg hpl]
        exact hop0 "parameters" (by decide) (by decide) (by decide) (by decide) (by decide)
    · intro k v hk
      exact buildRequestBody_preserves env fuel b σ₁ rb σ₂ hrb k v
        (buildResponses_preserves env fuel r st.schemas responses σ₁ hbr k v hk)
    · intro k hk
      by_cases hpn : (glookup st.paths (fiberPathToOA r.Path)).isNone
      · rw [if_pos hpn, glookup_gset_ne _ _ _ _ hk]
      · rw [if_neg hpn]
    · intro m2
      rcases hpn : glookup st.paths (fiberPathToOA r.Path) with _ | w
      · simp [glookup_gset_self, glookup]
      · cases w <;> simp [glookup, hpn]

theorem buildFold_spec (env : Env) (fuel : Nat) :
    ∀ (routes : List RouteInput) (st stF : BuildState),
      List.foldlM (processRoute env fuel) st routes = some stF →
      (∀ k v, glookup st.schemas k = some v → glookup stF.schemas k = some v) ∧
      (∀ k v, glookup st.securitySchemes k = some v → glookup stF.securitySchemes k = some v) ∧
      ((st.securitySchemes.map Prod.fst).Nodup → (stF.securitySchemes.map Prod.fst).Nodup) ∧
      ((∀ k v, glookup st.securitySchemes k = some v → v = inferSecurityScheme k) →
        ∀ k v, glookup stF.securitySchemes k = some v → v = inferSecurityScheme k) ∧
      (∀ r ∈ routes, ∀ s ∈ r.Secured, (glookup stF.securitySchemes s).isSome) ∧
      (∀ pk, pk ∉ routes.map routeKey → opLookup stF.paths pk = opLookup st.paths pk) ∧
      ((routes.map routeKey).Nodup → ∀ r ∈ routes,
        ∃ op, opLookup stF.paths (routeKey r) = some op ∧
          glookup op "security" = (if r.Secured.isEmpty then none
            else some (.arr (r.Secured.map (fun scheme => JVal.obj [(scheme, .arr [])])))) ∧
          glookup op "parameters" =
            (if (buildPathParameters r.Path ++ buildQueryParameters r.QueryParams).length > 0
             then some (.arr (buildPathParameters r.Path ++ buildQueryParameters r.QueryParams))
             else none)) := by
  intro routes
  induction routes with
  | nil =>
    intro st stF h
    simp only [List.foldlM_nil] at h
    have hst : st = stF := by
      injection h
    subst hst
    refine ⟨fun k v hv => hv, fun k v hv => hv, fun h0 => h0, fun h0 => h0,
      ?_, fun pk _ => rfl, ?_⟩
    · intro r hr; simp at hr
    · intro _ r hr; simp at hr
  | cons r rest ih =>
    intro st stF h
    simp only [List.foldlM_cons] at h
    rcases hpr : processRoute env fuel st r with _ | st₁
    · rw [hpr] at h; exact absurd h (by simp)
    rw [hpr] at h
    simp only [Option.bind_eq_bind, Option.some_bind] at h
    obtain ⟨⟨op, hop, hopsec, hoppar⟩, hsecEq, hschPres, hothers⟩ :=
      processRoute_spec env fuel st r st₁ hpr
    obtain ⟨ih1, ih2, ih3, ih4, ih5, ih6, ih7⟩ := ih st₁ stF h
    have hsec1 : ∀ k v, glookup st.securitySchemes k = some v →
        glookup st₁.securitySchemes k = some v := by
      intro k v hv
      rw [hsecEq]
      by_cases hse : r.Secured.isEmpty
      · rw [if_pos hse]; exact hv
      · rw [if_neg hse]; exact registerSchemes_preserves r.Secured st.securitySchemes k v hv
    refine ⟨?_, ?_, ?_, ?_, ?_, ?_, ?_⟩
    · intro k v hv; exact ih1 k v (hschPres k v hv)
    · intro k v hv; exact ih2 k v (hsec1 k v hv)
    · intro h0
      refine ih3 ?_
      rw [hsecEq]
      by_cases hse : r.Secured.isEmpty
      · rw [if_pos hse]; exact h0
      · rw [if_neg hse]; exact registerSchemes_nodup r.Secured st.securitySchemes h0
    · intro h0
      refine ih4 ?_
      rw [hsecEq]
      by_cases hse : r.Secured.isEmpty
      · rw [if_pos hse]; exact h0
      · rw [if_neg hse]; exact registerSchemes_inferred r.Secured st.securitySchemes h0
    · intro r2 hr2 s hsmem
      rcases List.mem_cons.mp hr2 with heq | htail
      · subst heq
        have hne : ¬ r2.Secured.isEmpty := by
          cases hsl : r2.Secured with
          | nil => rw [hsl] at hsmem; simp at hsmem
          | cons a l => simp [hsl]
        have h1 : (glookup st₁.securitySchemes s).isSome := by
          rw [hsecEq, if_neg hne]
          exact registerSchemes_mem r2.Secured st.securitySchemes s hsmem
        rcases hv : glookup st₁.securitySchemes s with _ | w
        · rw [hv] at h1; simp at h1
        · rw [ih2 s w hv]; rfl
      · exact ih5 r2 htail s hsmem
    · intro pk hpk
      have h1 : pk ∉ rest.map routeKey := by
        intro hin; exact hpk (List.mem_cons_of_mem _ hin)
      have h2 : pk ≠ routeKey r := by
        intro heq; exact hpk (heq ▸ List.mem_cons_self _ _)
      rw [ih6 pk h1, hothers pk h2]
    · intro hnd r2 hr2
      simp only [List.map_cons, List.nodup_cons] at hnd
      rcases List.mem_cons.mp hr2 with heq | htail
      · subst heq
        have h1 : routeKey r2 ∉ rest.map routeKey := hnd.1
        refine ⟨op, ?_, hopsec, hoppar⟩
        rw [ih6 (routeKey r2) h1]
        exact hop
      · exact ih7 hnd.2 r2 htail



/-- Capitalization as worded by the spec: uppercase the first character,
keep the rest. -/
def capitalizeSeg (s : String) : String := goUpper (goTake s 1) ++ goDrop s 1

/-- The per-segment appends of operation-id generation as worded by the
spec, for comparison with generateOperationID. -/
def opIdSpecParts : List String → String
  | [] => ""
  | seg :: rest =>
    (if seg = "" then ""
     else if goHasPrefix seg ":" then "By" ++ capitalizeSeg (goDrop seg 1)
     else capitalizeSeg seg) ++ opIdSpecParts rest

/-- Operation-id generation as worded by the spec: lowercase the method,
then append By plus the capitalized parameter name for parameter
segments and the capitalized literal for other non-empty segments. -/
def operationIdSpec (method path : String) : String :=
  goLower method ++ opIdSpecParts (goSplit path '/')

theorem opIdParts_total (parts : List String) :
    ∀ acc, (∀ seg ∈ parts, goHasPrefix seg ":" → goDrop seg 1 ≠ "") →
      opIdParts parts acc = some (acc ++ opIdSpecParts parts) := by
  induction parts with
  | nil => intro acc _; simp [opIdParts, opIdSpecParts]
  | cons seg rest ih =>
    intro acc hcond
    have hrest : ∀ s ∈ rest, goHasPrefix s ":" → goDrop s 1 ≠ "" :=
      fun s hs => hcond s (List.mem_cons_of_mem _ hs)
    unfold opIdParts
    by_cases he : seg = ""
    · rw [if_pos he, ih acc hrest]
      simp [opIdSpecParts, he]
    · rw [if_neg he]
      by_cases hp : goHasPrefix seg ":"
      · rw [if_pos hp]
        have hne : goDrop seg 1 ≠ "" := hcond seg (List.mem_cons_self _ _) hp
        rw [if_neg hne, ih _ hrest]
        simp [opIdSpecParts, he, hp, capitalizeSeg, String.append_assoc]
      · rw [if_neg hp, ih _ hrest]
        simp [opIdSpecParts, he, hp, capitalizeSeg, String.append_assoc]

/-- The everywhere-empty type environment. -/
def envEmpty : Env := fun _ => none

/-- A route whose path template has a bare colon segment. -/
def c10route : RouteInput := ⟨"GET", "/users/:", "", "", [], [], none, none, 0, [], false⟩

/-- A build input holding only the bare-colon route. -/
def c10input : BuildInput := ⟨"T", "1.0", "", none, none, [], [], [c10route]⟩

theorem processRoute_c10 (fuel : Nat) (st : BuildState) :
    processRoute envEmpty fuel st c10route = none := by
  unfold processRoute
  rw [show buildResponses envEmpty fuel c10route st.schemas
      = some (gmerge [] (buildAutoErrorResponses c10route), st.schemas) from rfl]
  rw [show generateOperationID c10route.Method c10route.Path = none from rfl]

/-- C10: on a path with a segment that is the bare sigil alone, path
parameter extraction and brace conversion succeed (an empty-named
parameter, empty braces), but operation-id generation hits the Go slice
of the empty parameter name and panics, so the whole build aborts for
every fuel; with every parameter segment non-empty the operation id is
always produced. -/
theorem C10_bare_sigil_panic :
    generateOperationID "GET" "/users/:" = none ∧
    (∀ fuel, Build envEmpty fuel c10input = none) ∧
    buildPathParameters "/users/:" = [pathParamObj ""] ∧
    fiberPathToOA "/users/:" = "/users/\x7b\x7d" ∧
    (∀ method path,
      (∀ seg ∈ goSplit path '/', goHasPrefix seg ":" → goDrop seg 1 ≠ "") →
      (generateOperationID method path).isSome) := by
  refine ⟨rfl, ?_, rfl, rfl, ?_⟩
  · intro fuel
    have h1 : List.foldlM (processRoute envEmpty fuel)
        (⟨[], registerStandardSchemas [], []⟩ : BuildState) c10input.Routes = none := by
      show (processRoute envEmpty fuel ⟨[], registerStandardSchemas [], []⟩ c10route >>=
        fun st => List.foldlM (processRoute envEmpty fuel) st []) = none
      rw [processRoute_c10]
      rfl
    unfold Build
    rw [h1]
  · intro method path h
    rw [show generateOperationID method path
        = opIdParts (goSplit path '/') (goLower method) from rfl,
      opIdParts_total (goSplit path '/') (goLower method) h]
    rfl

/-- Closed instance of C10's final conjunct at a concrete route. -/
theorem C10_bare_sigil_panic_witness :
    (generateOperationID "GET" "/health").isSome := by
  exact C10_bare_sigil_panic.2.2.2.2 "GET" "/health" (by decide)

/-- C5: operation-id generation is the pure deterministic function the
spec describes: the three quoted examples hold, and on every path whose
parameter segments are non-empty the result is exactly the lowercased
method followed by the capitalized segments, with By before parameter
names. -/
theorem C5_operation_id_generation :
    generateOperationID "GET" "/users/:id" = some "getUsersById" ∧
    generateOperationID "POST" "/v1/users" = some "postV1Users" ∧
    generateOperationID "PATCH" "/users/:id/posts/:postId"
      = some "patchUsersByIdPostsByPostId" ∧
    ∀ method path,
      (∀ seg ∈ goSplit path '/', goHasPrefix seg ":" → goDrop seg 1 ≠ "") →
      generateOperationID method path = some (operationIdSpec method path) := by
  refine ⟨rfl, rfl, rfl, ?_⟩
  intro method path hcond
  unfold generateOperationID operationIdSpec
  exact opIdParts_total (goSplit path '/') (goLower method) hcond

/-- Closed instance of C5's final conjunct at a concrete route. -/
theorem C5_operation_id_generation_witness :
    generateOperationID "DELETE" "/users/:id"
      = some (operationIdSpec "DELETE" "/users/:id") := by
  exact C5_operation_id_generation.2.2.2 "DELETE" "/users/:id" (by decide)



/-- C2 counterexample: registerStandardSchemas registers exactly three
standard schemas, not four. -/
theorem C2_exactly_three_not_four :
    (registerStandardSchemas []).length = 3 ∧
    ¬ (registerStandardSchemas []).length = 4 := by
  have h3 : (registerStandardSchemas []).length = 3 := rfl
  exact ⟨h3, by omega⟩

/-- C2 amended: Build pre-registers exactly three standard schemas (the
generic error envelope KErrorResponse, the validation-error item
ValidationErrorItem and the validation-error envelope
ValidationErrorResponse) before any route is processed, and these
registrations survive unchanged into the final document because
route-derived registration never overwrites an existing name. -/
theorem C2_standard_schemas :
    (registerStandardSchemas []).map Prod.fst
      = ["KErrorResponse", "ValidationErrorItem", "ValidationErrorResponse"] ∧
    glookup (registerStandardSchemas []) "KErrorResponse" = some kerrSchema ∧
    glookup (registerStandardSchemas []) "ValidationErrorItem"
      = some validationErrorItemSchema ∧
    glookup (registerStandardSchemas []) "ValidationErrorResponse"
      = some validationErrorResponseSchema ∧
    ∀ (env : Env) (fuel : Nat) (input : BuildInput) (spec : Spec),
      Build env fuel input = some spec →
      ∀ name v, glookup (registerStandardSchemas []) name = some v →
        glookup spec.Components.Schemas name = some v := by
  refine ⟨rfl, rfl, rfl, rfl, ?_⟩
  intro env fuel input spec hb name v hv
  unfold Build at hb
  rcases hf : List.foldlM (processRoute env fuel)
      (⟨[], registerStandardSchemas [], []⟩ : BuildState) input.Routes with _ | st
  · rw [hf] at hb; exact absurd hb (by simp)
  · rw [hf] at hb
    have h1 := (buildFold_spec env fuel input.Routes _ st hf).1 name v hv
    have h2 : spec.Components.Schemas = st.schemas := by
      rw [← Option.some.inj hb]
    rw [h2]
    exact h1

/-- The spec built from an input with no routes, for the C2 witness. -/
def c2spec : Spec :=
  (Build envEmpty 1 ⟨"T", "1.0", "", none, none, [], [], []⟩).getD
    ⟨"", ⟨"", "", "", none, none⟩, [], [], [], ⟨[], []⟩, []⟩

/-- Closed instance of C2's preservation conjunct on a concrete build. -/
theorem C2_standard_schemas_witness :
    glookup c2spec.Components.Schemas "KErrorResponse" = some kerrSchema := by
  exact C2_standard_schemas.2.2.2.2 envEmpty 1 ⟨"T", "1.0", "", none, none, [], [], []⟩
    c2spec rfl "KErrorResponse" kerrSchema rfl



theorem glookup_append_isSome {α : Type} (l1 l2 : List (String × α)) (k : String) :
    (glookup (l1 ++ l2) k).isSome ↔ (glookup l1 k).isSome ∨ (glookup l2 k).isSome := by
  induction l1 with
  | nil => simp [glookup]
  | cons kv rest ih =>
    obtain ⟨k0, v0⟩ := kv
    by_cases hk : k = k0
    · simp [glookup, hk]
    · simp [glookup, hk, ih]

theorem glookup_pair_isSome {α : Type} (a b : String) (x y : α) (k : String) :
    (glookup [(a, x), (b, y)] k).isSome ↔ (k = a ∨ k = b) := by
  by_cases h1 : k = a
  · simp [glookup, h1]
  · by_cases h2 : k = b
    · subst h2
      simp [glookup, h1]
    · simp [glookup, h1, h2]

theorem glookup_nil_isSome {α : Type} (k : String) :
    (glookup ([] : List (String × α)) k).isSome = false := rfl

theorem glookup_single_isSome {α : Type} (a : String) (x : α) (k : String) :
    (glookup [(a, x)] k).isSome ↔ k = a := by
  by_cases h1 : k = a <;> simp [glookup, h1]

theorem buildPathParameters_ne_nil (p : String) :
    buildPathParameters p ≠ [] ↔
      (goSplit p '/').any (fun part => goHasPrefix part ":") = true := by
  unfold buildPathParameters
  induction goSplit p '/' with
  | nil => simp [pathParamsLoop]
  | cons part rest ih =>
    by_cases hp : goHasPrefix part ":"
    · simp [pathParamsLoop, hp]
    · simp [pathParamsLoop, hp, ih]

/-- C3: the key set of the synthesized auto error responses is exactly
400 and 422 when a body type is present, 401 and 403 when the route is
secured, 404 when the path template has at least one parameter segment
(equivalently, when buildPathParameters is non-empty), and 500 always. -/
theorem C3_auto_error_response_keys (route : RouteInput) (k : String) :
    (glookup (buildAutoErrorResponses route) k).isSome ↔
      (((k = "400" ∨ k = "422") ∧ route.Body.isSome) ∨
       ((k = "401" ∨ k = "403") ∧ route.Secured ≠ []) ∨
       (k = "404" ∧ buildPathParameters route.Path ≠ []) ∨
       k = "500") := by
  rw [buildPathParameters_ne_nil]
  have hsec : (route.Secured ≠ []) ↔ ¬ route.Secured.isEmpty := by
    cases route.Secured <;> simp
  rw [hsec]
  unfold buildAutoErrorResponses
  rw [glookup_append_isSome, glookup_append_isSome, glookup_append_isSome]
  by_cases hb : route.Body.isSome <;>
    by_cases hs : route.Secured.isEmpty <;>
    by_cases hp : (goSplit route.Path '/').any (fun part => goHasPrefix part ":") <;>
    simp [hb, hs, hp, glookup_pair_isSome, glookup_single_isSome, glookup_nil_isSome] <;>
    tauto



theorem buildAutoErrorResponses_keys_nodup (route : RouteInput) :
    ((buildAutoErrorResponses route).map Prod.fst).Nodup := by
  unfold buildAutoErrorResponses
  by_cases hb : route.Body.isSome <;>
    by_cases hs : route.Secured.isEmpty <;>
    by_cases hp : (goSplit route.Path '/').any (fun part => goHasPrefix part ":") <;>
    simp [hb, hs, hp]

/-- A route with a declared response at status 500 (an auto-generated
error code) and no body, security or path parameters. -/
def c1route : RouteInput :=
  ⟨"GET", "/health", "", "", [], [], none, some (.prim .str), 500, [], false⟩

/-- C1 counterexample: for a route whose declared responseStatus is 500,
the response object emitted at 500 is the auto-generated Internal Server
Error response, not the declared success response: the claim fails at
this input. -/
theorem C1_counterexample :
    buildResponses envEmpty 1 c1route []
      = some ([("500", JVal.obj [("description", .str "Internal Server Error"),
          ("content", kerrorContent)])], []) ∧
    ¬ (glookup ((buildResponses envEmpty 1 c1route []).getD ([], [])).1 "500"
        = some (successEnvelope objSchema)) := by
  refine ⟨rfl, ?_⟩
  intro hcontra
  have h1 : glookup ((buildResponses envEmpty 1 c1route []).getD ([], [])).1 "500"
      = some (JVal.obj [("description", .str "Internal Server Error"),
          ("content", kerrorContent)]) := rfl
  rw [h1] at hcontra
  have h2 := Option.some.inj hcontra
  have h3 := congrArg (fun j => jget j "description") h2
  have h4 : (some (JVal.str "Internal Server Error") : Option JVal)
      = some (JVal.str "Success") := h3
  have h5 := Option.some.inj h4
  injection h5 with h6
  exact absurd h6 (by decide)

/-- C1 amended: the auto-generated error responses are merged after the
declared success response and overwrite it at any shared status code, so
an auto-generated entry always wins; the declared success response
survives only at codes outside the auto-generated key set (in practice
the 2xx codes). -/
theorem C1_auto_wins_on_overlap (env : Env) (fuel : Nat) (route : RouteInput)
    (σ : Registry) (resp : List (String × JVal)) (σ₁ : Registry)
    (h : buildResponses env fuel route σ = some (resp, σ₁)) :
    (∀ k v, glookup (buildAutoErrorResponses route) k = some v →
      glookup resp k = some v) ∧
    (∀ T, route.Response = some T →
      glookup (buildAutoErrorResponses route) (goItoa (effectiveCode route)) = none →
      ∃ s, glookup resp (goItoa (effectiveCode route)) = some (successEnvelope s)) := by
  unfold buildResponses at h
  rcases hT : route.Response with _ | T
  · rw [hT] at h
    dsimp only at h
    obtain ⟨h1, -⟩ := Prod.mk.injEq _ _ _ _ ▸ (Option.some.injEq _ _ ▸ h)
    constructor
    · intro k v hv
      rw [← h1]
      exact gmerge_lookup_of_mem _ [] k v (buildAutoErrorResponses_keys_nodup route) hv
    · intro T hT2
      exact absurd hT2 (by simp)
  · rw [hT] at h
    dsimp only at h
    rcases hrun : schemaRef env fuel (some T) σ with _ | p
    · rw [hrun] at h; exact absurd h (by simp)
    · obtain ⟨s, σ₂⟩ := p
      rw [hrun] at h
      dsimp only at h
      obtain ⟨h1, -⟩ := Prod.mk.injEq _ _ _ _ ▸ (Option.some.injEq _ _ ▸ h)
      constructor
      · intro k v hv
        rw [← h1]
        exact gmerge_lookup_of_mem _ _ k v (buildAutoErrorResponses_keys_nodup route) hv
      · intro T2 hT2 hnone
        refine ⟨s, ?_⟩
        rw [← h1, gmerge_lookup_of_absent _ _ _ hnone]
        simp [glookup]

/-- A route with a 200 response, used to witness C1's amended claim. -/
def c1wroute : RouteInput :=
  ⟨"GET", "/users/:id", "", "", [], [], none, some (.prim .str), 0, [], false⟩

/-- The response map built for the witness route. -/
def c1wpair : List (String × JVal) × Registry :=
  (buildResponses envEmpty 2 c1wroute []).getD ([], [])

/-- Closed instance of C1's amended claim: the auto 500 wins, and the
declared 200 success response survives because 200 is not auto-generated. -/
theorem C1_auto_wins_on_overlap_witness :
    glookup c1wpair.1 "500"
      = some (JVal.obj [("description", .str "Internal Server Error"),
          ("content", kerrorContent)]) ∧
    ∃ s, glookup c1wpair.1 "200" = some (successEnvelope s) := by
  have h := C1_auto_wins_on_overlap envEmpty 2 c1wroute [] c1wpair.1 c1wpair.2 rfl
  exact ⟨h.1 "500" _ rfl, h.2 (.prim .str) rfl rfl⟩



/-- C4: each route's securedBy list becomes one single-scheme requirement
object per listed scheme name in list order (an OR of alternatives), each
distinct scheme name is registered in components.securitySchemes at most
once across the whole build (no duplicate keys) with the descriptor
inferred from the name, and the inference is the case-insensitive
substring convention bearer, basic, API-key fallback. -/
theorem C4_security_requirements (env : Env) (fuel : Nat) (input : BuildInput)
    (spec : Spec) (r : RouteInput)
    (hnd : (input.Routes.map routeKey).Nodup)
    (hr : r ∈ input.Routes)
    (hb : Build env fuel input = some spec) :
    (∃ op, opLookup spec.Paths (routeKey r) = some op ∧
      glookup op "security" = (if r.Secured.isEmpty then none
        else some (.arr (r.Secured.map (fun scheme => JVal.obj [(scheme, .arr [])]))))) ∧
    (spec.Components.SecuritySchemes.map Prod.fst).Nodup ∧
    (∀ s ∈ r.Secured, glookup spec.Components.SecuritySchemes s
      = some (inferSecurityScheme s)) ∧
    (∀ nm, (goContains (goLower nm) "bearer" = true →
        inferSecurityScheme nm = ⟨"http", "bearer", "", "", "JWT"⟩) ∧
      (goContains (goLower nm) "bearer" = false →
        goContains (goLower nm) "basic" = true →
        inferSecurityScheme nm = ⟨"http", "basic", "", "", ""⟩) ∧
      (goContains (goLower nm) "bearer" = false →
        goContains (goLower nm) "basic" = false →
        inferSecurityScheme nm = ⟨"apiKey", "", "header", "X-API-Key", ""⟩)) := by
  unfold Build at hb
  rcases hf : List.foldlM (processRoute env fuel)
      (⟨[], registerStandardSchemas [], []⟩ : BuildState) input.Routes with _ | st
  · rw [hf] at hb; exact absurd hb (by simp)
  rw [hf] at hb
  obtain ⟨f1, f2, f3, f4, f5, f6, f7⟩ := buildFold_spec env fuel input.Routes _ st hf
  have hpaths : spec.Paths = st.paths := by rw [← Option.some.inj hb]
  have hsec : spec.Components.SecuritySchemes = st.securitySchemes := by
    rw [← Option.some.inj hb]
  refine ⟨?_, ?_, ?_, ?_⟩
  · obtain ⟨op, hop, hsecop, -⟩ := f7 hnd r hr
    rw [hpaths]
    exact ⟨op, hop, hsecop⟩
  · rw [hsec]
    exact f3 (by simp)
  · intro s hs
    have h1 := f5 r hr s hs
    rcases hv : glookup st.securitySchemes s with _ | w
    · rw [hv] at h1; simp at h1
    · have h2 := f4 (by intro k v hk; simp [glookup] at hk) s w hv
      rw [hsec, hv, h2]
  · intro nm
    unfold inferSecurityScheme
    refine ⟨?_, ?_, ?_⟩
    · intro h1; simp [h1]
    · intro h1 h2; simp [h1, h2]
    · intro h1 h2; simp [h1, h2]

/-- A route secured by a bearer scheme and an API-key scheme. -/
def c4route : RouteInput :=
  ⟨"GET", "/secure", "", "", [], ["bearerAuth", "apiKey"], none, none, 0, [], false⟩

/-- A build input holding only the secured route. -/
def c4input : BuildInput := ⟨"T", "1.0", "", none, none, [], [], [c4route]⟩

/-- The spec built for the secured route. -/
def c4spec : Spec :=
  (Build envEmpty 2 c4input).getD ⟨"", ⟨"", "", "", none, none⟩, [], [], [], ⟨[], []⟩, []⟩

/-- Closed instance of C4: two independent single-scheme alternatives and
both scheme names registered with their inferred descriptors. -/
theorem C4_security_requirements_witness :
    (∃ op, opLookup c4spec.Paths ("/secure", "get") = some op ∧
      glookup op "security" = some (.arr [JVal.obj [("bearerAuth", .arr [])],
        JVal.obj [("apiKey", .arr [])]])) ∧
    glookup c4spec.Components.SecuritySchemes "bearerAuth"
      = some ⟨"http", "bearer", "", "", "JWT"⟩ ∧
    glookup c4spec.Components.SecuritySchemes "apiKey"
      = some ⟨"apiKey", "", "header", "X-API-Key", ""⟩ := by
  have h := C4_security_requirements envEmpty 2 c4input c4spec c4route
    (by decide) (List.mem_singleton_self c4route) rfl
  refine ⟨?_, ?_, ?_⟩
  · obtain ⟨op, hop, hsecop⟩ := h.1
    exact ⟨op, hop, hsecop⟩
  · rw [h.2.2.1 "bearerAuth" (by decide)]
    rfl
  · rw [h.2.2.1 "apiKey" (by decide)]
    rfl

theorem pathParamsLoop_eq_filter_map (parts : List String) :
    pathParamsLoop parts = (parts.filter (fun part => goHasPrefix part ":")).map
      (fun part => pathParamObj (goDrop part 1)) := by
  induction parts with
  | nil => rfl
  | cons part rest ih =>
    by_cases hp : goHasPrefix part ":"
    · simp [pathParamsLoop, List.filter, hp, ih]
    · simp [pathParamsLoop, List.filter, hp, ih]

theorem queryParamsLoop_eq_map (ps : List QueryParamInput) :
    queryParamsLoop ps = ps.map queryParamObj := by
  induction ps with
  | nil => rfl
  | cons p rest ih => simp [queryParamsLoop, ih]

/-- C7: the operation's parameter list is exactly the path parameters
(one required string parameter per sigil segment, in template order)
followed by the declared query parameters (declaration order, string
default), and an operation with neither carries no parameters key at
all. -/
theorem C7_parameter_merging (env : Env) (fuel : Nat) (input : BuildInput)
    (spec : Spec) (r : RouteInput)
    (hnd : (input.Routes.map routeKey).Nodup)
    (hr : r ∈ input.Routes)
    (hb : Build env fuel input = some spec) :
    (∃ op, opLookup spec.Paths (routeKey r) = some op ∧
      glookup op "parameters" =
        (if (buildPathParameters r.Path ++ buildQueryParameters r.QueryParams).length > 0
         then some (.arr (buildPathParameters r.Path ++ buildQueryParameters r.QueryParams))
         else none)) ∧
    buildPathParameters r.Path = ((goSplit r.Path '/').filter
      (fun part => goHasPrefix part ":")).map (fun part => pathParamObj (goDrop part 1)) ∧
    buildQueryParameters r.QueryParams = r.QueryParams.map queryParamObj ∧
    (∀ p : QueryParamInput, p.Typ = "" →
      jget (queryParamObj p) "schema" = some (.obj [("type", .str "string")])) := by
  refine ⟨?_, pathParamsLoop_eq_filter_map _, queryParamsLoop_eq_map _, ?_⟩
  · unfold Build at hb
    rcases hf : List.foldlM (processRoute env fuel)
        (⟨[], registerStandardSchemas [], []⟩ : BuildState) input.Routes with _ | st
    · rw [hf] at hb; exact absurd hb (by simp)
    rw [hf] at hb
    obtain ⟨-, -, -, -, -, -, f7⟩ := buildFold_spec env fuel input.Routes _ st hf
    have hpaths : spec.Paths = st.paths := by rw [← Option.some.inj hb]
    obtain ⟨op, hop, -, hparop⟩ := f7 hnd r hr
    rw [hpaths]
    exact ⟨op, hop, hparop⟩
  · intro p hT
    unfold queryParamObj
    by_cases hd : p.Description ≠ ""
    · simp [hT, hd, jget, glookup]
    · simp [hT, hd, jget, glookup]

/-- A route with one path parameter and one query parameter of
unspecified type, and a route with neither. -/
def c7route : RouteInput :=
  ⟨"GET", "/users/:id", "", "", [], [], none, none, 0,
    [⟨"page", "", "", false⟩], false⟩

/-- A parameterless route. -/
def c7route2 : RouteInput := ⟨"GET", "/health", "", "", [], [], none, none, 0, [], false⟩

/-- A build input holding both witness routes. -/
def c7input : BuildInput := ⟨"T", "1.0", "", none, none, [], [], [c7route, c7route2]⟩

/-- The spec built for the two witness routes. -/
def c7spec : Spec :=
  (Build envEmpty 2 c7input).getD ⟨"", ⟨"", "", "", none, none⟩, [], [], [], ⟨[], []⟩, []⟩

/-- Closed instance of C7: the parameterized route carries the path
parameter followed by the query parameter; the parameterless route's
operation has no parameters key. -/
theorem C7_parameter_merging_witness :
    (∃ op, opLookup c7spec.Paths ("/users/\x7bid\x7d", "get") = some op ∧
      glookup op "parameters" = some (.arr [pathParamObj "id", queryParamObj ⟨"page", "", "", false⟩])) ∧
    (∃ op, opLookup c7spec.Paths ("/health", "get") = some op ∧
      glookup op "parameters" = none) := by
  have h1 := C7_parameter_merging envEmpty 2 c7input c7spec c7route
    (by decide) (by simp [c7input]) rfl
  have h2 := C7_parameter_merging envEmpty 2 c7input c7spec c7route2
    (by decide) (by simp [c7input]) rfl
  constructor
  · obtain ⟨op, hop, hpar⟩ := h1.1
    exact ⟨op, hop, hpar⟩
  · obtain ⟨op, hop, hpar⟩ := h2.1
    exact ⟨op, hop, hpar⟩



/-- C6: schemaRef on a named struct type is idempotent: when a first
call returns, the returned object is the ref determined by the type's
name, the name is registered afterwards, and a second call with the same
type on the resulting registry (any positive fuel) returns the same ref
and leaves the whole registry, hence also the registered schema for the
name, unchanged: the first registered structure wins and no duplicate or
overwrite occurs. -/
theorem C6_schemaRef_idempotent (env : Env) (fuel : Nat) (t : GoType)
    (name : String) (σ σ₁ : Registry) (r : JVal)
    (hname : structNameOf (derefOnce t) = some name) (hne : name ≠ "")
    (h : schemaRef env fuel (some t) σ = some (r, σ₁)) :
    r = refObj name ∧
    (glookup σ₁ name).isSome ∧
    (∀ fuel2, schemaRef env (fuel2 + 1) (some t) σ₁ = some (r, σ₁)) := by
  cases fuel with
  | zero => exact absurd h (by simp [schemaRef, run])
  | succ n =>
    unfold schemaRef run at h
    dsimp only at h
    rw [hname] at h
    dsimp only at h
    rw [if_neg hne] at h
    rcases hlk : glookup σ name with _ | w
    · rw [hlk] at h
      dsimp only at h
      rcases hrun : run env n (.refl (some t)) σ with _ | p
      · rw [hrun] at h; exact absurd h (by simp)
      · obtain ⟨s, σ₂⟩ := p
        rw [hrun] at h
        dsimp only at h
        obtain ⟨h1, h2⟩ := Prod.mk.injEq _ _ _ _ ▸ (Option.some.injEq _ _ ▸ h)
        refine ⟨h1.symm, ?_, ?_⟩
        · rw [← h2, glookup_gset_self]
          rfl
        · intro fuel2
          unfold schemaRef run
          dsimp only
          rw [hname]
          dsimp only
          rw [if_neg hne, ← h2, glookup_gset_self]
          dsimp only
          rw [h1]
    · rw [hlk] at h
      dsimp only at h
      obtain ⟨h1, h2⟩ := Prod.mk.injEq _ _ _ _ ▸ (Option.some.injEq _ _ ▸ h)
      refine ⟨h1.symm, ?_, ?_⟩
      · rw [← h2, hlk]
        rfl
      · intro fuel2
        unfold schemaRef run
        dsimp only
        rw [hname]
        dsimp only
        rw [if_neg hne, ← h2, hlk]
        dsimp only
        rw [h1, h2]

/-- An environment with one named struct type A. -/
def c6env : Env := fun n =>
  if n = "A" then some [(⟨"x", "", "", "", "", ""⟩, .prim .str)] else none

/-- The result of the first schemaRef call on A over the empty registry. -/
def c6first : JVal × Registry :=
  (schemaRef c6env 5 (some (.named "A")) []).getD (objSchema, [])

/-- Closed instance of C6: a second schemaRef call on the registry the
first call produced returns the same ref and the same registry. -/
theorem C6_schemaRef_idempotent_witness :
    schemaRef c6env 1 (some (.named "A")) c6first.2 = some (c6first.1, c6first.2) := by
  have h0 : schemaRef c6env 5 (some (.named "A")) [] = some (c6first.1, c6first.2) := by
    rfl
  have h := C6_schemaRef_idempotent c6env 5 (.named "A") "A" [] c6first.2 c6first.1
    rfl (by decide) h0
  exact h.2.2 0



theorem jget_jset_ne (j : JVal) (k k2 : String) (v : JVal) (h : k2 ≠ k) :
    jget (jset j k v) k2 = jget j k2 := by
  cases j with
  | obj l => simp [jset, jget, glookup_gset_ne _ _ _ _ h]
  | str s => rfl
  | num n => rfl
  | bool b => rfl
  | arr l => rfl

theorem jget_jset_self (l : List (String × JVal)) (k : String) (v : JVal) :
    jget (jset (.obj l) k v) k = some v := by
  simp [jset, jget, glookup_gset_self]

theorem enrichUniversal_jget_ne (tags : GoTags) (p : JVal) (key : String)
    (h1 : key ≠ "description") (h2 : key ≠ "example") (h3 : key ≠ "default") :
    jget (enrichUniversal tags p) key = jget p key := by
  unfold enrichUniversal
  split_ifs <;> simp [jget_jset_ne, h1, h2, h3]

theorem enrichFormat_jget_ne (tags : GoTags) (p : JVal) (key : String)
    (h : key ≠ "format") :
    jget (enrichFormat tags p) key = jget p key := by
  unfold enrichFormat
  split_ifs <;> simp [jget_jset_ne, h]

theorem enrichMin_jget_ne (v : String) (p : JVal) (key : String)
    (h1 : key ≠ "minLength") (h2 : key ≠ "minimum") :
    jget (enrichMin v p) key = jget p key := by
  unfold enrichMin
  split_ifs <;> simp [jget_jset_ne, h1, h2]

theorem enrichMax_jget_ne (v : String) (p : JVal) (key : String)
    (h1 : key ≠ "maxLength") (h2 : key ≠ "maximum") :
    jget (enrichMax v p) key = jget p key := by
  unfold enrichMax
  split_ifs <;> simp [jget_jset_ne, h1, h2]

theorem enrichOneof_jget_ne (v : String) (p : JVal) (key : String)
    (h : key ≠ "enum") :
    jget (enrichOneof v p) key = jget p key := by
  unfold enrichOneof
  split_ifs <;> simp [jget_jset_ne, h]

theorem enrichUniversal_obj (tags : GoTags) (l : List (String × JVal)) :
    ∃ l2, enrichUniversal tags (.obj l) = .obj l2 := by
  unfold enrichUniversal
  split_ifs <;> exact ⟨_, rfl⟩

theorem enrichFormat_obj (tags : GoTags) (l : List (String × JVal)) :
    ∃ l2, enrichFormat tags (.obj l) = .obj l2 := by
  unfold enrichFormat
  split_ifs <;> exact ⟨_, rfl⟩

/-- The serialized names of the fields whose validate tag carries the
required marker, in field order (the required list the reflectSchema
loop accumulates). -/
def requiredOf (fs : List (GoTags × GoType)) : List String :=
  fs.filterMap (fun f =>
    match emitName f.1 with
    | some name => if goContains f.1.validateTag "required" then some name else none
    | none => none)

theorem fieldsLoop_required (env : Env) (fs : List (GoTags × GoType)) :
    ∀ (fuel : Nat) (props : List (String × JVal)) (req : List String)
      (σ : Registry) (out : JVal) (σ₂ : Registry),
      run env fuel (.fields fs props req) σ = some (out, σ₂) →
      jget out "required" = (if (req ++ requiredOf fs).isEmpty then none
        else some (.arr ((req ++ requiredOf fs).map .str))) := by
  induction fs with
  | nil =>
    intro fuel props req σ out σ₂ h
    cases fuel with
    | zero => exact absurd h (by simp [run])
    | succ n =>
      simp only [run] at h
      obtain ⟨h1, -⟩ := Prod.mk.injEq _ _ _ _ ▸ (Option.some.injEq _ _ ▸ h)
      rw [← h1]
      unfold mkSchemaObj
      by_cases hre : req.isEmpty
      · simp [jget, glookup, hre, requiredOf]
      · simp [jget, glookup, hre, requiredOf]
  | cons f rest ih =>
    intro fuel props req σ out σ₂ h
    cases fuel with
    | zero => exact absurd h (by simp [run])
    | succ n =>
      obtain ⟨tags, typ⟩ := f
      simp only [run] at h
      rcases he : emitName tags with _ | name
      · rw [he] at h
        rw [ih n props req σ out σ₂ h]
        have hro : requiredOf ((tags, typ) :: rest) = requiredOf rest := by
          simp [requiredOf, he]
        rw [hro]
      · rw [he] at h
        rcases hrun : run env n (.fschema typ) σ with _ | p
        · rw [hrun] at h; exact absurd h (by simp)
        · obtain ⟨prop0, σ₁⟩ := p
          rw [hrun] at h
          dsimp only at h
          rw [ih n _ _ _ out σ₂ h]
          by_cases hreq : goContains tags.validateTag "required"
          · have hro : requiredOf ((tags, typ) :: rest) = name :: requiredOf rest := by
              simp [requiredOf, he, hreq]
            rw [if_pos hreq, hro]
            simp [List.append_assoc]
          · have hro : requiredOf ((tags, typ) :: rest) = requiredOf rest := by
              simp [requiredOf, he, hreq]
            rw [if_neg hreq, hro]


theorem enrichMin_obj (v : String) (l : List (String × JVal)) :
    ∃ l2, enrichMin v (.obj l) = .obj l2 := by
  unfold enrichMin
  split_ifs <;> exact ⟨_, rfl⟩

set_option maxHeartbeats 1000000 in
theorem fschemaPrim_enriched (env : Env) (fuel : Nat) (tags : GoTags) (k : GoKind)
    (σ : Registry) (prop0 : JVal) (σ₂ : Registry)
    (h : run env fuel (.fschema (.prim k)) σ = some (prop0, σ₂)) :
    σ₂ = σ ∧
    (extractParam tags.validateTag "min" ≠ "" →
      (if (goTypeToOA (.prim k)).1 = "string"
       then jget (enrichProp tags (.prim k) prop0) "minLength"
            = some (.num (toInt (extractParam tags.validateTag "min"))) ∧
          jget (enrichProp tags (.prim k) prop0) "minimum" = none
       else jget (enrichProp tags (.prim k) prop0) "minimum"
            = some (.num (toInt (extractParam tags.validateTag "min"))) ∧
          jget (enrichProp tags (.prim k) prop0) "minLength" = none)) ∧
    (extractParam tags.validateTag "max" ≠ "" →
      (if (goTypeToOA (.prim k)).1 = "string"
       then jget (enrichProp tags (.prim k) prop0) "maxLength"
            = some (.num (toInt (extractParam tags.validateTag "max"))) ∧
          jget (enrichProp tags (.prim k) prop0) "maximum" = none
       else jget (enrichProp tags (.prim k) prop0) "maximum"
            = some (.num (toInt (extractParam tags.validateTag "max"))) ∧
          jget (enrichProp tags (.prim k) prop0) "maxLength" = none)) := by
  cases fuel with
  | zero => exact absurd h (by simp [run])
  | succ n =>
    simp only [run] at h
    obtain ⟨h1, h2⟩ := Prod.mk.injEq _ _ _ _ ▸ (Option.some.injEq _ _ ▸ h)
    have hobj0 : prop0 = .obj ([("type", .str (goTypeToOA (.prim k)).1)]
        ++ (if (goTypeToOA (.prim k)).2 ≠ ""
            then [("format", .str (goTypeToOA (.prim k)).2)] else [])) := h1.symm
    have htype0 : jget prop0 "type" = some (.str (goTypeToOA (.prim k)).1) := by
      rw [hobj0]
      by_cases hf : (goTypeToOA (.prim k)).2 ≠ "" <;> simp [jget, glookup, hf]
    have hnone0 : ∀ key, key ≠ "type" → key ≠ "format" → jget prop0 key = none := by
      intro key hk1 hk2
      rw [hobj0]
      by_cases hf : (goTypeToOA (.prim k)).2 ≠ "" <;> simp [jget, glookup, hf, hk1, hk2]
    obtain ⟨l3, hl3⟩ : ∃ l3, enrichUniversal tags prop0 = .obj l3 := by
      rw [hobj0]
      exact enrichUniversal_obj tags _
    obtain ⟨l4, hl4⟩ : ∃ l4, enrichFormat tags (enrichUniversal tags prop0) = .obj l4 := by
      rw [hl3]
      exact enrichFormat_obj tags l3
    have htype4 : jget (enrichFormat tags (enrichUniversal tags prop0)) "type"
        = some (.str (goTypeToOA (.prim k)).1) := by
      rw [enrichFormat_jget_ne tags _ "type" (by decide),
        enrichUniversal_jget_ne tags _ "type" (by decide) (by decide) (by decide), htype0]
    have hnone4 : ∀ key, key ≠ "type" → key ≠ "format" → key ≠ "description" →
        key ≠ "example" → key ≠ "default" →
        jget (enrichFormat tags (enrichUniversal tags prop0)) key = none := by
      intro key hk1 hk2 hk3 hk4 hk5
      rw [enrichFormat_jget_ne tags _ key hk2,
        enrichUniversal_jget_ne tags _ key hk3 hk4 hk5, hnone0 key hk1 hk2]
    have hEP : enrichProp tags (.prim k) prop0
        = enrichOneof tags.validateTag (enrichMax tags.validateTag
            (enrichMin tags.validateTag (enrichFormat tags (enrichUniversal tags prop0)))) := by
      simp [enrichProp, isPrimitiveKind]
    have htype5 : jget (enrichMin tags.validateTag
        (enrichFormat tags (enrichUniversal tags prop0))) "type"
        = some (.str (goTypeToOA (.prim k)).1) := by
      rw [enrichMin_jget_ne _ _ "type" (by decide) (by decide), htype4]
    obtain ⟨l5, hl5⟩ : ∃ l5, enrichMin tags.validateTag
        (enrichFormat tags (enrichUniversal tags prop0)) = .obj l5 := by
      rw [hl4]
      exact enrichMin_obj _ l4
    refine ⟨h2.symm, ?_, ?_⟩
    · intro hmin
      by_cases hstring : (goTypeToOA (.prim k)).1 = "string"
      · rw [if_pos hstring]
        have hstr4 : isStringProp (enrichFormat tags (enrichUniversal tags prop0)) = true := by
          unfold isStringProp
          rw [htype4]
          simp [hstring]
        have hp5 : enrichMin tags.validateTag (enrichFormat tags (enrichUniversal tags prop0))
            = jset (enrichFormat tags (enrichUniversal tags prop0)) "minLength"
                (.num (toInt (extractParam tags.validateTag "min"))) := by
          unfold enrichMin
          rw [if_pos hmin, if_pos hstr4]
        constructor
        · rw [hEP, enrichOneof_jget_ne _ _ _ (by decide),
            enrichMax_jget_ne _ _ _ (by decide) (by decide), hp5, hl4]
          exact jget_jset_self l4 _ _
        · rw [hEP, enrichOneof_jget_ne _ _ _ (by decide),
            enrichMax_jget_ne _ _ _ (by decide) (by decide), hp5,
            jget_jset_ne _ _ _ _ (by decide),
            hnone4 "minimum" (by decide) (by decide) (by decide) (by decide) (by decide)]
      · rw [if_neg hstring]
        have hstr4 : isStringProp (enrichFormat tags (enrichUniversal tags prop0)) = false := by
          unfold isStringProp
          rw [htype4]
          simp [hstring]
        have hp5 : enrichMin tags.validateTag (enrichFormat tags (enrichUniversal tags prop0))
            = jset (enrichFormat tags (enrichUniversal tags prop0)) "minimum"
                (.num (toInt (extractParam tags.validateTag "min"))) := by
          unfold enrichMin
          rw [if_pos hmin, if_neg (by simp [hstr4])]
        constructor
        · rw [hEP, enrichOneof_jget_ne _ _ _ (by decide),
            enrichMax_jget_ne _ _ _ (by decide) (by decide), hp5, hl4]
          exact jget_jset_self l4 _ _
        · rw [hEP, enrichOneof_jget_ne _ _ _ (by decide),
            enrichMax_jget_ne _ _ _ (by decide) (by decide), hp5,
            jget_jset_ne _ _ _ _ (by decide),
            hnone4 "minLength" (by decide) (by decide) (by decide) (by decide) (by decide)]
    · intro hmax
      by_cases hstring : (goTypeToOA (.prim k)).1 = "string"
      · rw [if_pos hstring]
        have hstr5 : isStringProp (enrichMin tags.validateTag
            (enrichFormat tags (enrichUniversal tags prop0))) = true := by
          unfold isStringProp
          rw [htype5]
          simp [hstring]
        have hp6 : enrichMax tags.validateTag (enrichMin tags.validateTag
              (enrichFormat tags (enrichUniversal tags prop0)))
            = jset (enrichMin tags.validateTag (enrichFormat tags (enrichUniversal tags prop0)))
                "maxLength" (.num (toInt (extractParam tags.validateTag "max"))) := by
          unfold enrichMax
          rw [if_pos hmax, if_pos hstr5]
        constructor
        · rw [hEP, enrichOneof_jget_ne _ _ _ (by decide), hp6, hl5]
          exact jget_jset_self l5 _ _
        · rw [hEP, enrichOneof_jget_ne _ _ _ (by decide), hp6,
            jget_jset_ne _ _ _ _ (by decide),
            enrichMin_jget_ne _ _ _ (by decide) (by decide),
            hnone4 "maximum" (by decide) (by decide) (by decide) (by decide) (by decide)]
      · rw [if_neg hstring]
        have hstr5 : isStringProp (enrichMin tags.validateTag
            (enrichFormat tags (enrichUniversal tags prop0))) = false := by
          unfold isStringProp
          rw [htype5]
          simp [hstring]
        have hp6 : enrichMax tags.validateTag (enrichMin tags.validateTag
              (enrichFormat tags (enrichUniversal tags prop0)))
            = jset (enrichMin tags.validateTag (enrichFormat tags (enrichUniversal tags prop0)))
                "maximum" (.num (toInt (extractParam tags.validateTag "max"))) := by
          unfold enrichMax
          rw [if_pos hmax, if_neg (by simp [hstr5])]
        constructor
        · rw [hEP, enrichOneof_jget_ne _ _ _ (by decide), hp6, hl5]
          exact jget_jset_self l5 _ _
        · rw [hEP, enrichOneof_jget_ne _ _ _ (by decide), hp6,
            jget_jset_ne _ _ _ _ (by decide),
            enrichMin_jget_ne _ _ _ (by decide) (by decide),
            hnone4 "maxLength" (by decide) (by decide) (by decide) (by decide) (by decide)]


/-- C8: for a primitive-kind field whose validate tag carries min and
max, the enriched property schema gains minLength and maxLength when the
field's OpenAPI type is string, and minimum and maximum otherwise, never
the opposite pair; and the parent object's required list holds exactly
the emitted field names whose validate tag contains the required marker,
in field order. -/
theorem C8_validation_constraints :
    (∀ (env : Env) (fuel : Nat) (tags : GoTags) (k : GoKind) (σ : Registry)
      (prop0 : JVal) (σ₂ : Registry),
      run env fuel (.fschema (.prim k)) σ = some (prop0, σ₂) →
      σ₂ = σ ∧
      (extractParam tags.validateTag "min" ≠ "" →
        (if (goTypeToOA (.prim k)).1 = "string"
         then jget (enrichProp tags (.prim k) prop0) "minLength"
              = some (.num (toInt (extractParam tags.validateTag "min"))) ∧
            jget (enrichProp tags (.prim k) prop0) "minimum" = none
         else jget (enrichProp tags (.prim k) prop0) "minimum"
              = some (.num (toInt (extractParam tags.validateTag "min"))) ∧
            jget (enrichProp tags (.prim k) prop0) "minLength" = none)) ∧
      (extractParam tags.validateTag "max" ≠ "" →
        (if (goTypeToOA (.prim k)).1 = "string"
         then jget (enrichProp tags (.prim k) prop0) "maxLength"
              = some (.num (toInt (extractParam tags.validateTag "max"))) ∧
            jget (enrichProp tags (.prim k) prop0) "maximum" = none
         else jget (enrichProp tags (.prim k) prop0) "maximum"
              = some (.num (toInt (extractParam tags.validateTag "max"))) ∧
            jget (enrichProp tags (.prim k) prop0) "maxLength" = none))) ∧
    (∀ (env : Env) (fs : List (GoTags × GoType)) (fuel : Nat)
      (props : List (String × JVal)) (req : List String)
      (σ : Registry) (out : JVal) (σ₂ : Registry),
      run env fuel (.fields fs props req) σ = some (out, σ₂) →
      jget out "required" = (if (req ++ requiredOf fs).isEmpty then none
        else some (.arr ((req ++ requiredOf fs).map .str)))) :=
  ⟨fschemaPrim_enriched, fieldsLoop_required⟩

/-- The tags of a string field with required, min and max validation. -/
def c8nameTags : GoTags := ⟨"name", "required,min=2,max=50", "", "", "", ""⟩

/-- The tags of a numeric field with min and max validation. -/
def c8ageTags : GoTags := ⟨"age", "min=2,max=50", "", "", "", ""⟩

/-- The base property built by fieldSchema for a string field. -/
def c8strProp : JVal := ((run envEmpty 1 (.fschema (.prim .str)) []).getD (objSchema, [])).1

/-- The base property built by fieldSchema for an int field. -/
def c8intProp : JVal := ((run envEmpty 1 (.fschema (.prim .int)) []).getD (objSchema, [])).1

/-- The two-field struct of the C8 scenario. -/
def c8fields : List (GoTags × GoType) := [(c8nameTags, .prim .str), (c8ageTags, .prim .int)]

/-- The schema the reflectSchema loop builds for the two-field struct. -/
def c8schemaObj : JVal := ((run envEmpty 3 (.fields c8fields [] []) []).getD (objSchema, [])).1

/-- Closed instance of C8: the string field gains minLength 2 and
maxLength 50, the numeric field gains minimum 2 and maximum 50, and only
the required-marked name field is listed in required. -/
theorem C8_validation_constraints_witness :
    jget (enrichProp c8nameTags (.prim .str) c8strProp) "minLength" = some (.num 2) ∧
    jget (enrichProp c8nameTags (.prim .str) c8strProp) "maxLength" = some (.num 50) ∧
    jget (enrichProp c8ageTags (.prim .int) c8intProp) "minimum" = some (.num 2) ∧
    jget (enrichProp c8ageTags (.prim .int) c8intProp) "maximum" = some (.num 50) ∧
    jget c8schemaObj "required" = some (.arr [.str "name"]) := by
  have hs := C8_validation_constraints.1 envEmpty 1 c8nameTags GoKind.str [] c8strProp [] rfl
  have hi := C8_validation_constraints.1 envEmpty 1 c8ageTags GoKind.int [] c8intProp [] rfl
  have hr := C8_validation_constraints.2 envEmpty c8fields 3 [] [] [] c8schemaObj [] rfl
  refine ⟨?_, ?_, ?_, ?_, ?_⟩
  · have h1 := hs.2.1 (by decide)
    rw [if_pos (show (goTypeToOA (.prim GoKind.str)).1 = "string" from rfl)] at h1
    exact h1.1
  · have h1 := hs.2.2 (by decide)
    rw [if_pos (show (goTypeToOA (.prim GoKind.str)).1 = "string" from rfl)] at h1
    exact h1.1
  · have h1 := hi.2.1 (by decide)
    rw [if_neg (show ¬ (goTypeToOA (.prim GoKind.int)).1 = "string" by decide)] at h1
    exact h1.1
  · have h1 := hi.2.2 (by decide)
    rw [if_neg (show ¬ (goTypeToOA (.prim GoKind.int)).1 = "string" by decide)] at h1
    exact h1.1
  · rw [hr]
    rfl



mutual
/-- The named struct types referenced anywhere inside a type. -/
def refsOfType : GoType → List String
  | .named n => [n]
  | .anon fs => refsOfFields fs
  | .slice e => refsOfType e
  | .ptr e => refsOfType e
  | .prim _ => []
  | .timeT => []
  | .dict => []
/-- The named struct types referenced by a field list. -/
def refsOfFields : List (GoTags × GoType) → List String
  | [] => []
  | f :: fs => refsOfType f.2 ++ refsOfFields fs
end

mutual
/-- A structural size for types, used as an induction measure. -/
def sizeT : GoType → Nat
  | .anon fs => sizeFs fs + 1
  | .slice e => sizeT e + 1
  | .ptr e => sizeT e + 1
  | _ => 1
/-- A structural size for field lists. -/
def sizeFs : List (GoTags × GoType) → Nat
  | [] => 1
  | f :: fs => sizeT f.2 + sizeFs fs + 4
end

/-- One more than the largest rank of a name in the list (zero for the
empty list). -/
def rankBound (rank : String → Nat) (l : List String) : Nat :=
  l.foldr (fun n a => max (rank n + 1) a) 0

/-- Acyclicity certificate for the named-struct reference graph of an
environment: every name referenced from the fields of a declared named
struct has strictly smaller rank. -/
def RankOK (env : Env) (rank : String → Nat) : Prop :=
  ∀ n fs, env n = some fs → rankBound rank (refsOfFields fs) ≤ rank n

/-- The rank measure of a pending task. -/
def taskRank (rank : String → Nat) : Task → Nat
  | .sref none => 0
  | .sref (some t) => rankBound rank (refsOfType t)
  | .refl none => 0
  | .refl (some t) => rankBound rank (refsOfType t)
  | .fields fs _ _ => rankBound rank (refsOfFields fs)
  | .fschema t => rankBound rank (refsOfType t)

/-- The size measure of a pending task. -/
def taskSize : Task → Nat
  | .sref none => 1
  | .sref (some t) => sizeT t + 2
  | .refl none => 1
  | .refl (some t) => sizeT t + 1
  | .fields fs _ _ => sizeFs fs
  | .fschema t => sizeT t + 3

theorem rankBound_append (rank : String → Nat) (l1 l2 : List String) :
    rankBound rank (l1 ++ l2) = max (rankBound rank l1) (rankBound rank l2) := by
  induction l1 with
  | nil => simp [rankBound]
  | cons n rest ih =>
    simp only [rankBound, List.cons_append, List.foldr_cons] at ih ⊢
    omega

theorem rank_lt_of_mem (rank : String → Nat) (l : List String) (n : String)
    (h : n ∈ l) : rank n + 1 ≤ rankBound rank l := by
  induction l with
  | nil => simp at h
  | cons m rest ih =>
    simp only [rankBound, List.foldr_cons]
    rcases List.mem_cons.mp h with heq | htail
    · subst heq; omega
    · have := ih htail
      simp only [rankBound] at this
      omega

theorem refsOf_deref (t : GoType) : refsOfType (derefOnce t) = refsOfType t := by
  cases t <;> rfl

theorem sizeT_deref (t : GoType) : sizeT (derefOnce t) ≤ sizeT t := by
  cases t <;> simp [derefOnce, sizeT]

theorem sizeT_pos (t : GoType) : 1 ≤ sizeT t := by
  cases t <;> simp [sizeT]

theorem sizeFs_pos (fs : List (GoTags × GoType)) : 1 ≤ sizeFs fs := by
  cases fs <;> simp [sizeFs]


set_option maxHeartbeats 2000000 in
theorem run_total (env : Env) (rank : String → Nat) (hr : RankOK env rank) :
    ∀ (b s : Nat) (τ : Task) (σ : Registry),
      taskRank rank τ ≤ b → taskSize τ ≤ s → ∃ f, (run env f τ σ).isSome := by
  intro b
  induction b using Nat.strong_induction_on with
  | _ b ihb =>
    intro s
    induction s using Nat.strong_induction_on with
    | _ s ihs =>
      intro τ σ hrank hsize
      match τ with
      | .sref none => exact ⟨1, by simp [run]⟩
      | .sref (some t) =>
        rcases hsn : structNameOf (derefOnce t) with _ | name
        · refine ⟨1, ?_⟩
          simp only [run]
          rw [hsn]
          rfl
        · by_cases hname : name = ""
          · have hsz : taskSize (.refl (some t)) < s := by
              simp only [taskSize] at hsize ⊢
              omega
            obtain ⟨f1, hf1⟩ := ihs (taskSize (.refl (some t))) hsz (.refl (some t)) σ
              (by simpa only [taskRank] using hrank) (le_refl _)
            obtain ⟨p, hp⟩ := Option.isSome_iff_exists.mp hf1
            refine ⟨f1 + 1, ?_⟩
            simp only [run]
            rw [hsn]
            dsimp only
            rw [if_pos hname, hp]
            rfl
          · rcases hlk : glookup σ name with _ | w
            · have hsz : taskSize (.refl (some t)) < s := by
                simp only [taskSize] at hsize ⊢
                omega
              obtain ⟨f1, hf1⟩ := ihs (taskSize (.refl (some t))) hsz (.refl (some t)) σ
                (by simpa only [taskRank] using hrank) (le_refl _)
              obtain ⟨p, hp⟩ := Option.isSome_iff_exists.mp hf1
              obtain ⟨sv, σ₂⟩ := p
              refine ⟨f1 + 1, ?_⟩
              simp only [run]
              rw [hsn]
              dsimp only
              rw [if_neg hname, hlk, hp]
              rfl
            · refine ⟨1, ?_⟩
              simp only [run]
              rw [hsn]
              dsimp only
              rw [if_neg hname, hlk]
              rfl
      | .refl none => exact ⟨1, by simp [run]⟩
      | .refl (some t) =>
        rcases hsn : structNameOf (derefOnce t) with _ | name
        · refine ⟨1, ?_⟩
          simp only [run]
          rw [hsn]
          rfl
        · cases ht2 : derefOnce t with
          | prim k => rw [ht2] at hsn; simp [structNameOf] at hsn
          | slice e => rw [ht2] at hsn; simp [structNameOf] at hsn
          | ptr e => rw [ht2] at hsn; simp [structNameOf] at hsn
          | dict => rw [ht2] at hsn; simp [structNameOf] at hsn
          | timeT =>
            have hsz : taskSize (.fields [] [] []) < s := by
              have h1 := sizeT_pos t
              simp only [taskSize, sizeFs] at hsize ⊢
              omega
            obtain ⟨f1, hf1⟩ := ihs (taskSize (.fields [] [] [])) hsz (.fields [] [] []) σ
              (by simp [taskRank, refsOfFields, rankBound]) (le_refl _)
            refine ⟨f1 + 1, ?_⟩
            simp only [run]
            rw [hsn, ht2]
            dsimp only
            exact hf1
          | anon fs =>
            have hsize2 : sizeFs fs + 1 ≤ sizeT t := by
              have := sizeT_deref t
              rw [ht2] at this
              simpa [sizeT] using this
            have hsz : taskSize (.fields fs [] []) < s := by
              simp only [taskSize] at hsize ⊢
              omega
            have hrk : taskRank rank (.fields fs [] []) ≤ b := by
              have h1 : refsOfType (derefOnce t) = refsOfFields fs := by
                rw [ht2]; rfl
              have h2 := refsOf_deref t
              simp only [taskRank] at hrank ⊢
              rw [← h2, h1] at hrank
              exact hrank
            obtain ⟨f1, hf1⟩ := ihs (taskSize (.fields fs [] [])) hsz (.fields fs [] []) σ
              hrk (le_refl _)
            refine ⟨f1 + 1, ?_⟩
            simp only [run]
            rw [hsn, ht2]
            dsimp only
            exact hf1
          | named n =>
            rcases henv : env n with _ | fs
            · have hsz : taskSize (.fields [] [] []) < s := by
                have h1 := sizeT_pos t
                simp only [taskSize, sizeFs] at hsize ⊢
                omega
              obtain ⟨f1, hf1⟩ := ihs (taskSize (.fields [] [] [])) hsz (.fields [] [] []) σ
                (by simp [taskRank, refsOfFields, rankBound]) (le_refl _)
              refine ⟨f1 + 1, ?_⟩
              simp only [run]
              rw [hsn, ht2]
              dsimp only
              simp only [fieldsOf]
              rw [henv]
              exact hf1
            · have hnb : rank n < b := by
                have h1 : n ∈ refsOfType t := by
                  rw [← refsOf_deref t, ht2]
                  simp [refsOfType]
                have h2 := rank_lt_of_mem rank (refsOfType t) n h1
                simp only [taskRank] at hrank
                omega
              have hrk : taskRank rank (.fields fs [] []) ≤ rank n := by
                simp only [taskRank]
                exact hr n fs henv
              obtain ⟨f1, hf1⟩ := ihb (rank n) hnb (taskSize (.fields fs [] []))
                (.fields fs [] []) σ hrk (le_refl _)
              refine ⟨f1 + 1, ?_⟩
              simp only [run]
              rw [hsn, ht2]
              dsimp only
              simp only [fieldsOf]
              rw [henv]
              exact hf1
      | .fields [] props req => exact ⟨1, by simp [run]⟩
      | .fields ((tags, typ) :: rest) props req =>
        have hrkT : rankBound rank (refsOfType typ) ≤ b := by
          simp only [taskRank, refsOfFields] at hrank
          rw [rankBound_append] at hrank
          omega
        have hrkR : rankBound rank (refsOfFields rest) ≤ b := by
          simp only [taskRank, refsOfFields] at hrank
          rw [rankBound_append] at hrank
          omega
        rcases he : emitName tags with _ | name
        · have hsz : taskSize (.fields rest props req) < s := by
            have h1 := sizeT_pos typ
            simp only [taskSize, sizeFs] at hsize ⊢
            omega
          obtain ⟨f1, hf1⟩ := ihs (taskSize (.fields rest props req)) hsz
            (.fields rest props req) σ (by simpa only [taskRank] using hrkR) (le_refl _)
          refine ⟨f1 + 1, ?_⟩
          simp only [run]
          rw [he]
          exact hf1
        · have hszT : taskSize (.fschema typ) < s := by
            have h1 := sizeFs_pos rest
            simp only [taskSize, sizeFs] at hsize ⊢
            omega
          obtain ⟨f1, hf1⟩ := ihs (taskSize (.fschema typ)) hszT (.fschema typ) σ
            (by simpa only [taskRank] using hrkT) (le_refl _)
          obtain ⟨p, hp⟩ := Option.isSome_iff_exists.mp hf1
          obtain ⟨prop0, σ₁⟩ := p
          have hszR : taskSize (.fields rest (gset props name (enrichProp tags typ prop0))
              (if goContains tags.validateTag "required" then req ++ [name] else req)) < s := by
            have h1 := sizeT_pos typ
            simp only [taskSize, sizeFs] at hsize ⊢
            omega
          obtain ⟨f2, hf2⟩ := ihs _ hszR
            (.fields rest (gset props name (enrichProp tags typ prop0))
              (if goContains tags.validateTag "required" then req ++ [name] else req)) σ₁
            (by simpa only [taskRank] using hrkR) (le_refl _)
          obtain ⟨p2, hp2⟩ := Option.isSome_iff_exists.mp hf2
          refine ⟨max f1 f2 + 1, ?_⟩
          simp only [run]
          rw [he]
          rw [run_mono env f1 (max f1 f2) _ _ _ (Nat.le_max_left _ _) hp]
          dsimp only
          rw [run_mono env f2 (max f1 f2) _ _ _ (Nat.le_max_right _ _) hp2]
          rfl
      | .fschema t =>
        match t with
        | .prim k => exact ⟨1, by simp [run]⟩
        | .timeT => exact ⟨1, by simp [run]⟩
        | .dict => exact ⟨1, by simp [run]⟩
        | .named n =>
          have hsz : taskSize (.sref (some (.named n))) < s := by
            simp only [taskSize] at hsize ⊢
            omega
          obtain ⟨f1, hf1⟩ := ihs _ hsz (.sref (some (.named n))) σ
            (by simpa only [taskRank] using hrank) (le_refl _)
          refine ⟨f1 + 1, ?_⟩
          simp only [run]
          exact hf1
        | .anon fs =>
          have hsz : taskSize (.sref (some (.anon fs))) < s := by
            simp only [taskSize] at hsize ⊢
            omega
          obtain ⟨f1, hf1⟩ := ihs _ hsz (.sref (some (.anon fs))) σ
            (by simpa only [taskRank] using hrank) (le_refl _)
          refine ⟨f1 + 1, ?_⟩
          simp only [run]
          exact hf1
        | .slice e =>
          by_cases hst : isStructKind (derefOnce e)
          · have hsz : taskSize (.sref (some (derefOnce e))) < s := by
              have h1 := sizeT_deref e
              simp only [taskSize, sizeT] at hsize ⊢
              omega
            have hrk2 : taskRank rank (.sref (some (derefOnce e))) ≤ b := by
              simp only [taskRank] at hrank ⊢
              rw [refsOf_deref e]
              simpa only [refsOfType] using hrank
            obtain ⟨f1, hf1⟩ := ihs _ hsz (.sref (some (derefOnce e))) σ hrk2 (le_refl _)
            obtain ⟨p, hp⟩ := Option.isSome_iff_exists.mp hf1
            obtain ⟨sv, σ₂⟩ := p
            refine ⟨f1 + 1, ?_⟩
            simp only [run]
            rw [if_pos hst, hp]
            rfl
          · refine ⟨1, ?_⟩
            simp only [run]
            rw [if_neg hst]
            rfl
        | .ptr e =>
          by_cases hst : isStructKind e
          · have hsz : taskSize (.sref (some e)) < s := by
              simp only [taskSize, sizeT] at hsize ⊢
              omega
            have hrk2 : taskRank rank (.sref (some e)) ≤ b := by
              simpa only [taskRank, refsOfType] using hrank
            obtain ⟨f1, hf1⟩ := ihs _ hsz (.sref (some e)) σ hrk2 (le_refl _)
            obtain ⟨p, hp⟩ := Option.isSome_iff_exists.mp hf1
            obtain ⟨sv, σ₂⟩ := p
            refine ⟨f1 + 1, ?_⟩
            simp only [run]
            rw [if_pos hst, hp]
            rfl
          · refine ⟨1, ?_⟩
            simp only [run]
            rw [if_neg hst]
            rfl


/-- The environment declaring the self-referential named struct Node,
whose single field has its own named type. -/
def nodeEnv : Env := fun n =>
  if n = "Node" then some [(⟨"next", "", "", "", "", ""⟩, .named "Node")] else none

theorem nodeDiverges : ∀ (f : Nat) (σ : Registry), glookup σ "Node" = none →
    (run nodeEnv f (.sref (some (.named "Node"))) σ = none ∧
     run nodeEnv f (.refl (some (.named "Node"))) σ = none ∧
     (∀ props req, run nodeEnv f
        (.fields [(⟨"next", "", "", "", "", ""⟩, .named "Node")] props req) σ = none) ∧
     run nodeEnv f (.fschema (.named "Node")) σ = none) := by
  intro f
  induction f using Nat.strong_induction_on with
  | _ f ih =>
    intro σ hnone
    cases f with
    | zero => exact ⟨rfl, rfl, fun _ _ => rfl, rfl⟩
    | succ n =>
      have ihn := ih n (Nat.lt_succ_self n) σ hnone
      refine ⟨?_, ?_, ?_, ?_⟩
      · simp only [run]
        dsimp only [derefOnce, structNameOf]
        rw [if_neg (by decide), hnone, ihn.2.1]
      · simp only [run]
        exact ihn.2.2.1 [] []
      · intro props req
        simp only [run]
        rw [show emitName ⟨"next", "", "", "", "", ""⟩ = some "next" from rfl]
        rw [ihn.2.2.2]
      · simp only [run]
        exact ihn.1

/-- C9: schema introspection terminates whenever the environment's graph
of named struct references is acyclic, witnessed by a rank function
under which every reference strictly descends; while on the
self-referential Node type (a struct holding a field of its own named
type) the introspection returns none for every fuel whenever Node is not
yet registered, because a name is entered into the registry only after
its full schema has been built, so the dedup check never breaks the
cycle. -/
theorem C9_cycle_policy :
    (∀ (env : Env) (rank : String → Nat), RankOK env rank →
      ∀ (t : GoType) (σ : Registry), ∃ f, (run env f (.sref (some t)) σ).isSome) ∧
    (∀ (f : Nat) (σ : Registry), glookup σ "Node" = none →
      run nodeEnv f (.sref (some (.named "Node"))) σ = none) := by
  constructor
  · intro env rank hr t σ
    exact run_total env rank hr (taskRank rank (.sref (some t))) (taskSize (.sref (some t)))
      (.sref (some t)) σ (le_refl _) (le_refl _)
  · intro f σ h
    exact (nodeDiverges f σ h).1

/-- An acyclic two-type environment: A holds a field of named type B, B
holds a string field. -/
def envAB : Env := fun n =>
  if n = "A" then some [(⟨"b", "", "", "", "", ""⟩, .named "B")]
  else if n = "B" then some [(⟨"x", "", "", "", "", ""⟩, .prim .str)] else none

/-- A rank function certifying acyclicity of envAB. -/
def rankAB : String → Nat := fun n => if n = "A" then 1 else 0

/-- Closed instance of C9: the acyclic environment terminates for some
fuel and the self-referential Node runs out of any fuel. -/
theorem C9_cycle_policy_witness :
    (∃ f, (run envAB f (.sref (some (.named "A"))) []).isSome) ∧
    run nodeEnv 9 (.sref (some (.named "Node"))) [] = none := by
  constructor
  · refine C9_cycle_policy.1 envAB rankAB ?_ (.named "A") []
    intro n fs h
    by_cases hA : n = "A"
    · subst hA
      have hfs : fs = [(⟨"b", "", "", "", "", ""⟩, .named "B")] := by
        have h2 : envAB "A" = some [(⟨"b", "", "", "", "", ""⟩, GoType.named "B")] := rfl
        rw [h2] at h
        exact (Option.some.inj h).symm
      subst hfs
      simp [refsOfFields, refsOfType, rankBound, rankAB]
    · by_cases hB : n = "B"
      · subst hB
        have hfs : fs = [(⟨"x", "", "", "", "", ""⟩, .prim .str)] := by
          have h2 : envAB "B" = some [(⟨"x", "", "", "", "", ""⟩, GoType.prim .str)] := rfl
          rw [h2] at h
          exact (Option.some.inj h).symm
        subst hfs
        simp [refsOfFields, refsOfType, rankBound]
      · have h2 : envAB n = none := by simp [envAB, hA, hB]
        rw [h2] at h
        exact absurd h (by simp)
  · exact C9_cycle_policy.2 9 [] rfl

end Keel
